import Mathlib

/-!
# Verification of the dtvc-inventory spreadsheet import engine

Shallow embedding of the inventory application's write paths:

* `src/src/app/api/inventory/import/route.ts` — the `POST` import handler
  (header resolution, field coercion, merge-or-create, row loop, count);
* `src/unnamed/part_001` — the `PUT` update endpoint;
* `src/src/app/page.tsx` (route section) — the `POST` create endpoint.

Modelling conventions:

* JavaScript numbers are modelled as exact rationals (`ℚ`).  The engine's
  arithmetic (serial-date conversion, numeric coercions) is plain arithmetic
  on cell values, so `ℚ` represents it exactly for every value a spreadsheet
  cell can carry; float rounding is outside the model.
* A spreadsheet cell value (`string | number` in the `ExcelRow` interface)
  is `Value`; an absent key is `Option.none`.
* A parsed row (the object produced by `sheet_to_json`) is an ordered
  association list `Row`; `Object.keys` order is the list order.
* JS `Date` values are `JsDate`: either `invalid` (NaN time) or a valid
  millisecond timestamp relative to the Unix epoch.  Stored nullable dates
  are `Option ℤ` (milliseconds).
* `toLowerCase`/`trim` are modelled on the ASCII range the data uses.
* The store (`prisma.inventoryItem`) is a list of records in insertion
  order with an id counter; `findFirst` is first-match in list order,
  `update` rewrites the record with the given id, `create` appends with a
  fresh id.  Store-managed columns the engine never reads or writes
  (`soldQuantity`, `createdAt`, `updatedAt`) are omitted.
-/

/-- ASCII lowercasing of one character, as `String.prototype.toLowerCase`
acts on the ASCII range (the only range the header aliases use). -/
def lowerChar (c : Char) : Char :=
  if 65 ≤ c.toNat ∧ c.toNat ≤ 90 then Char.ofNat (c.toNat + 32) else c

/-- `s.toLowerCase()` on ASCII contents. -/
def lowerStr (s : String) : String :=
  ⟨s.data.map lowerChar⟩

/-- Strip leading and trailing whitespace from a character list. -/
def trimChars (l : List Char) : List Char :=
  ((l.dropWhile Char.isWhitespace).reverse.dropWhile Char.isWhitespace).reverse

/-- `s.trim()`: remove leading and trailing whitespace. -/
def jsTrim (s : String) : String :=
  ⟨trimChars s.data⟩

/-- `k.toLowerCase().trim()` — the header normalisation on both sides of the
fuzzy key comparison in `getKey` (route.ts line 50). -/
def normKey (k : String) : String :=
  jsTrim (lowerStr k)

/-!
Arithmetic on `ℚ` is written through the following wrappers, which are
definitionally kernel-computable (the ambient library's `Rat.add` etc. are
sealed); each is proved equal to the corresponding field operation below,
so symbolic reasoning can use the ordinary algebra of `ℚ`.
-/

/-- Rational addition via cross multiplication. -/
def rAdd (a b : ℚ) : ℚ := Rat.divInt (a.num * b.den + b.num * a.den) (a.den * b.den)

/-- Rational subtraction via cross multiplication. -/
def rSub (a b : ℚ) : ℚ := Rat.divInt (a.num * b.den - b.num * a.den) (a.den * b.den)

/-- Rational multiplication. -/
def rMul (a b : ℚ) : ℚ := Rat.divInt (a.num * b.num) (a.den * b.den)

/-- Rational division (`0` when the divisor is `0`, as in `ℚ`). -/
def rDiv (a b : ℚ) : ℚ := Rat.divInt (a.num * b.den) (a.den * b.num)

/-- Rational negation. -/
def rNeg (a : ℚ) : ℚ := Rat.divInt (-a.num) a.den

theorem rAdd_eq (a b : ℚ) : rAdd a b = a + b := by
  rw [rAdd, Rat.divInt_eq_div]
  push_cast
  conv_rhs => rw [← Rat.num_div_den a, ← Rat.num_div_den b]
  rw [div_add_div _ _ (by exact_mod_cast a.den_nz) (by exact_mod_cast b.den_nz)]
  ring_nf

theorem rSub_eq (a b : ℚ) : rSub a b = a - b := by
  rw [rSub, Rat.divInt_eq_div]
  push_cast
  conv_rhs => rw [← Rat.num_div_den a, ← Rat.num_div_den b]
  rw [div_sub_div _ _ (by exact_mod_cast a.den_nz) (by exact_mod_cast b.den_nz)]
  ring_nf

theorem rMul_eq (a b : ℚ) : rMul a b = a * b := by
  rw [rMul, Rat.divInt_eq_div]
  push_cast
  conv_rhs => rw [← Rat.num_div_den a, ← Rat.num_div_den b]
  rw [div_mul_div_comm]

theorem rDiv_eq (a b : ℚ) : rDiv a b = a / b := by
  rw [rDiv, Rat.divInt_eq_div]
  rcases eq_or_ne b 0 with rfl | hb
  · simp
  · have hbn : (b.num : ℚ) ≠ 0 := by
      exact_mod_cast Rat.num_ne_zero.mpr hb
    have had : (a.den : ℚ) ≠ 0 := by exact_mod_cast a.den_nz
    have hbd : (b.den : ℚ) ≠ 0 := by exact_mod_cast b.den_nz
    push_cast
    conv_rhs => rw [← Rat.num_div_den a, ← Rat.num_div_den b]
    rw [div_div_div_eq]

theorem rNeg_eq (a : ℚ) : rNeg a = -a := by
  rw [rNeg, Rat.divInt_eq_div]
  push_cast
  conv_rhs => rw [← Rat.num_div_den a]
  rw [neg_div]

/-- A spreadsheet cell value: `string | number` from the `ExcelRow`
interface. -/
inductive Value where
  | str (s : String)
  | num (q : ℚ)
deriving DecidableEq, Repr

/-- JS truthiness of a cell value: `""` and `0` are falsy. -/
def valueTruthy : Value → Bool
  | .str s => !s.isEmpty
  | .num q => decide (q ≠ 0)

/-- JS truthiness with `undefined` (absent key) falsy. -/
def optTruthy : Option Value → Bool
  | none => false
  | some v => valueTruthy v

/-- Decimal digits of a natural number. -/
def natDigitsRepr (n : ℕ) : String :=
  Nat.toDigits 10 n |>.asString

/-- Digits after the decimal point of a rational in `[0, 1)`, by repeated
multiplication by ten (bounded fuel; exact whenever the denominator divides
a power of ten — i.e. for every decimal literal a cell can hold). -/
def fracDigits : ℕ → ℚ → String
  | 0, _ => ""
  | fuel + 1, r =>
    if r = 0 then ""
    else
      let r10 := rMul r 10
      let d := r10.num / r10.den
      natDigitsRepr d.toNat ++ fracDigits fuel (rSub r10 (d : ℚ))

/-- `String(n)` for a JS number, restricted to the values the engine meets:
exact for integers and for terminating decimal expansions. -/
def jsNumToString (q : ℚ) : String :=
  let sign := if q < 0 then "-" else ""
  let q := if q < 0 then rNeg q else q
  let ip := q.num / q.den
  let frac := rSub q (ip : ℚ)
  if frac = 0 then sign ++ natDigitsRepr ip.toNat
  else sign ++ natDigitsRepr ip.toNat ++ "." ++ fracDigits 17 frac

/-- `String(v)` for a cell value. -/
def jsStringV : Value → String
  | .str s => s
  | .num q => jsNumToString q

/-- `String(x)` where `x` may be `undefined`. -/
def jsStringO : Option Value → String
  | none => "undefined"
  | some v => jsStringV v

/-- One decimal digit. -/
def digitVal (c : Char) : Option ℕ :=
  if 48 ≤ c.toNat ∧ c.toNat ≤ 57 then some (c.toNat - 48) else none

/-- Parse a maximal run of decimal digits; returns the accumulated value and
the number of digits consumed, plus the rest. -/
def takeDigits : List Char → ℕ → ℕ → ℕ × ℕ × List Char
  | [], acc, cnt => (acc, cnt, [])
  | c :: cs, acc, cnt =>
    match digitVal c with
    | some d => takeDigits cs (acc * 10 + d) (cnt + 1)
    | none => (acc, cnt, c :: cs)

/-- `10 ^ n` as a rational. -/
def pow10 (n : ℕ) : ℚ :=
  ((10 ^ n : ℕ) : ℚ)

/-- `parseFloat(s)`: skip leading whitespace, optional sign, a decimal
mantissa (digits, optional point, digits) and an optional exponent; the
longest valid numeric prefix is used and trailing text is ignored.
`none` models `NaN` (no digits at all). -/
def jsParseFloat (s : String) : Option ℚ :=
  let cs := s.data.dropWhile Char.isWhitespace
  let (neg, cs) :=
    match cs with
    | '-' :: rest => (true, rest)
    | '+' :: rest => (false, rest)
    | _ => (false, cs)
  let (ip, ipCnt, cs) := takeDigits cs 0 0
  let (fp, fpCnt, cs) :=
    match cs with
    | '.' :: rest => takeDigits rest 0 0
    | _ => (0, 0, cs)
  if ipCnt + fpCnt = 0 then none
  else
    let mant : ℚ := rAdd (ip : ℚ) (rDiv (fp : ℚ) (pow10 fpCnt))
    let scaled : ℚ :=
      match cs with
      | 'e' :: rest | 'E' :: rest =>
        match rest with
        | '-' :: rest2 =>
          let (e, eCnt, _) := takeDigits rest2 0 0
          if eCnt = 0 then mant else rDiv mant (pow10 e)
        | '+' :: rest2 =>
          let (e, eCnt, _) := takeDigits rest2 0 0
          if eCnt = 0 then mant else rMul mant (pow10 e)
        | _ =>
          let (e, eCnt, _) := takeDigits rest 0 0
          if eCnt = 0 then mant else rMul mant (pow10 e)
      | _ => mant
    some (if neg then rNeg scaled else scaled)

/-- `parseInt(s)` (radix unspecified): skip leading whitespace, optional
sign, then a maximal run of decimal digits — or hexadecimal digits after a
`0x`/`0X` prefix.  `none` models `NaN`. -/
def jsParseInt (s : String) : Option ℤ :=
  let cs := s.data.dropWhile Char.isWhitespace
  let (sgn, cs) :=
    match cs with
    | '-' :: rest => ((-1 : ℤ), rest)
    | '+' :: rest => ((1 : ℤ), rest)
    | _ => ((1 : ℤ), cs)
  let hexDigit (c : Char) : Option ℕ :=
    if 48 ≤ c.toNat ∧ c.toNat ≤ 57 then some (c.toNat - 48)
    else if 97 ≤ (lowerChar c).toNat ∧ (lowerChar c).toNat ≤ 102 then
      some ((lowerChar c).toNat - 87)
    else none
  let rec takeHex : List Char → ℕ → ℕ → ℕ × ℕ
    | [], acc, cnt => (acc, cnt)
    | c :: cs, acc, cnt =>
      match hexDigit c with
      | some d => takeHex cs (acc * 16 + d) (cnt + 1)
      | none => (acc, cnt)
  match cs with
  | '0' :: 'x' :: rest | '0' :: 'X' :: rest =>
    let (v, cnt) := takeHex rest 0 0
    if cnt = 0 then none else some (sgn * v)
  | _ =>
    let (v, cnt, _) := takeDigits cs 0 0
    if cnt = 0 then none else some (sgn * v)

/-- Truncation toward zero, as JS `parseInt` acts on the decimal printout of
a number (exact for `|q| < 1e21`, far beyond any inventory quantity). -/
def ratTrunc (q : ℚ) : ℤ :=
  Int.tdiv q.num q.den

example : jsParseFloat "19.99" = some (mkRat 1999 100) := by decide
example : jsParseFloat "  -3.5kg" = some (mkRat (-7) 2) := by decide
example : jsParseFloat "abc" = none := by decide
example : jsParseFloat "" = none := by decide
example : jsParseInt "12" = some 12 := by decide
example : jsParseInt "12.9" = some 12 := by decide
example : jsParseInt "" = none := by decide
example : jsParseInt "undefined" = none := by decide
example : normKey " Item Name " = "item name" := by decide
example : normKey "ITEMNAME" = "itemname" := by decide

/-- Floor of a rational as `⌊num/den⌋` using floor division (kernel-reducible). -/
def ratFloor (q : ℚ) : ℤ :=
  Int.fdiv q.num q.den

/-- `Math.round(q)`: round half up, i.e. `⌊q + 1/2⌋`. -/
def jsRound (q : ℚ) : ℤ :=
  ratFloor (rAdd q (mkRat 1 2))

/-- Days from 1970-01-01 to the civil date `y-m-d` (proleptic Gregorian,
the standard era-based day count). -/
def daysFromCivil (y m d : ℤ) : ℤ :=
  let y' := y - (if m ≤ 2 then 1 else 0)
  let era := Int.fdiv y' 400
  let yoe := y' - era * 400
  let doy := Int.fdiv (153 * ((m + 9) % 12) + 2) 5 + d - 1
  let doe := yoe * 365 + Int.fdiv yoe 4 - Int.fdiv yoe 100 + doy
  era * 146097 + doe - 719468

/-- A JS `Date`: either an invalid date (`NaN` time value) or a valid
millisecond timestamp since the Unix epoch. -/
inductive JsDate where
  | invalid
  | valid (ms : ℤ)
deriving DecidableEq, Repr

/-- Length of a month in the Gregorian calendar. -/
def daysInMonth (y m : ℤ) : ℤ :=
  if m = 2 then (if y % 4 = 0 ∧ (y % 100 ≠ 0 ∨ y % 400 = 0) then 29 else 28)
  else if m = 4 ∨ m = 6 ∨ m = 9 ∨ m = 11 then 30
  else 31

/-- Decimal value of an all-digit character list (`none` if any character is
not a digit; the empty list is rejected). -/
def digitsToNat (l : List Char) : Option ℕ :=
  if l.isEmpty then none
  else l.foldl (fun acc c => acc.bind (fun a => (digitVal c).map (fun d => a * 10 + d)))
    (some 0)

/-- Split a character list on a separator character. -/
def splitOnChar (sep : Char) : List Char → List (List Char)
  | [] => [[]]
  | c :: cs =>
    if c = sep then [] :: splitOnChar sep cs
    else
      match splitOnChar sep cs with
      | [] => [[c]]
      | g :: gs => (c :: g) :: gs

/-- `new Date(s)` for a string argument, modelled on the ISO `YYYY-MM-DD`
(date-only, hence UTC) subset that inventory sheets use; every other string
is modelled as an invalid date, as JS yields for non-date text. -/
def jsDateOfString (s : String) : JsDate :=
  match splitOnChar '-' s.data with
  | [ys, ms, ds] =>
    if ys.length = 4 ∧ ms.length = 2 ∧ ds.length = 2 then
      match digitsToNat ys, digitsToNat ms, digitsToNat ds with
      | some y, some m, some d =>
        if 1 ≤ m ∧ m ≤ 12 ∧ 1 ≤ d ∧ (d : ℤ) ≤ daysInMonth y m then
          .valid (daysFromCivil y m d * 86400000)
        else .invalid
      | _, _, _ => .invalid
    else .invalid
  | _ => .invalid

/-- The largest time value a JS `Date` accepts (±100 000 000 days in ms);
`new Date(ms)` outside this range is an invalid date. -/
def maxJsDateMs : ℕ := 8640000000000000

/-- `new Date(ms)` for a (rounded) millisecond count. -/
def jsDateOfMs (ms : ℤ) : JsDate :=
  if ms.natAbs ≤ maxJsDateMs then .valid ms else .invalid

example : daysFromCivil 1970 1 1 = 0 := by decide
example : daysFromCivil 2025 1 1 = 20089 := by decide
example : jsDateOfString "2025-01-01" = .valid (20089 * 86400000) := by decide
example : jsDateOfString "soon" = .invalid := by decide
example : jsDateOfString "2025-02-31" = .invalid := by decide
example : jsRound (mkRat 2 5) = 0 := by decide
example : jsRound ((45000 : ℚ)) = 45000 := by decide

/-!
## Data model and store

`InventoryItem` carries the columns of the `InventoryItem` table that the
modelled write paths read or write (see `prisma/migrations/.../migration.sql`);
`unitType` and `expiryDate` are nullable there.
-/

structure InventoryItem where
  id : ℕ
  itemName : String
  sellingPrice : ℚ
  currentQuantity : ℤ
  unitType : Option String
  expiryDate : Option ℤ
  status : String
deriving DecidableEq, Repr

/-- The relational store: records in insertion order plus the
auto-increment counter for primary keys. -/
structure Store where
  items : List InventoryItem
  nextId : ℕ
deriving DecidableEq, Repr

/-- Store well-formedness: primary keys are unique and below the
auto-increment counter — the invariant every SQL store provides. -/
def WF (st : Store) : Prop :=
  (∀ it ∈ st.items, it.id < st.nextId) ∧ (st.items.map (·.id)).Nodup

instance (st : Store) : Decidable (WF st) := by
  unfold WF; infer_instance

/-- `prisma.inventoryItem.findFirst({ where: { itemName } })`: first record
with the given name, in store order. -/
def findByName (st : Store) (n : String) : Option InventoryItem :=
  st.items.find? (fun r => r.itemName = n)

/-- Record with a given primary key. -/
def getById (st : Store) (i : ℕ) : Option InventoryItem :=
  st.items.find? (fun r => r.id = i)

/-- The column values written by the import handler's `update` call
(route.ts lines 97–107). -/
structure UpdateData where
  sellingPrice : ℚ
  currentQuantity : ℤ
  unitType : String
  expiryDate : Option ℤ
  status : String
deriving DecidableEq, Repr

/-- Apply an update's column values to a stored record (columns not listed
in `data` are untouched). -/
def applyUpdate (d : UpdateData) (r : InventoryItem) : InventoryItem :=
  { r with
    sellingPrice := d.sellingPrice
    currentQuantity := d.currentQuantity
    unitType := some d.unitType
    expiryDate := d.expiryDate
    status := d.status }

/-- `prisma.inventoryItem.update({ where: { id }, data })`. -/
def updateItem (st : Store) (i : ℕ) (d : UpdateData) : Store :=
  { st with items := st.items.map (fun r => if r.id = i then applyUpdate d r else r) }

/-- Replace the record with primary key `i` wholesale (helper used to reason
about `updateItem`). -/
def setById (st : Store) (i : ℕ) (y : InventoryItem) : Store :=
  { st with items := st.items.map (fun r => if r.id = i then y else r) }

/-- `prisma.inventoryItem.create({ data })`: append with a fresh id. -/
def createItem (st : Store) (mk : ℕ → InventoryItem) : Store :=
  { items := st.items ++ [mk st.nextId], nextId := st.nextId + 1 }

/-!
## The import engine (route.ts `POST`)
-/

/-- A parsed spreadsheet row: ordered association list from raw header to
cell value (the object produced by `sheet_to_json`). -/
abbrev Row := List (String × Value)

/-- `row[k]`: value at an exact key. -/
def rowGet (row : Row) (k : String) : Option Value :=
  (row.find? (fun p => p.1 = k)).map (·.2)

/-- Line 50: `Object.keys(row).find(k => k.toLowerCase().trim() ===
key.toLowerCase().trim())`. -/
def getKey (row : Row) (key : String) : Option String :=
  (row.find? (fun p => normKey p.1 = normKey key)).map (·.1)

/-- The key used to index the row for a field:
`getKey(a₁) || getKey(a₂) || … || ''` (first alias whose `getKey`
succeeds, else the empty string). -/
def fieldKey (row : Row) (aliases : List String) : String :=
  (aliases.findSome? (getKey row)).getD ""

/-- The raw value resolved for a field: `row[fieldKey]`. -/
def fieldVal (row : Row) (aliases : List String) : Option Value :=
  rowGet row (fieldKey row aliases)

/-- The raw cell values the handler extracts from a row
(route.ts lines 53–61). -/
structure ParsedRow where
  itemNameRaw : Option Value
  sellingPriceRaw : Option Value
  currentQuantityRaw : Option Value
  unitTypeRaw : Option Value
  expiryDateRaw : Option Value
  statusRaw : Option Value
deriving DecidableEq, Repr

def parseRow (row : Row) : ParsedRow :=
  { itemNameRaw := fieldVal row ["item name", "itemname"]
    sellingPriceRaw := fieldVal row ["selling price", "price"]
    currentQuantityRaw := fieldVal row ["current quantity", "current qty", "quantity"]
    unitTypeRaw := fieldVal row ["unit type", "unit"]
    expiryDateRaw := fieldVal row ["expiry date", "expiry"]
    statusRaw := fieldVal row ["status"] }

/-- Line 64: `parseFloat(String(sellingPriceRaw)) || 0`.  For a numeric
cell, `parseFloat(String(n)) = n` (JS number printing round-trips); `NaN`
(no parse, including `String(undefined)`) and `-0` collapse to `0`. -/
def coerceFloat : Option Value → ℚ
  | some (.num q) => q
  | some (.str s) => (jsParseFloat s).getD 0
  | none => 0

/-- Line 65: `parseInt(String(currentQuantityRaw)) || 0`.  For a numeric
cell, `parseInt` of its decimal printout truncates toward zero. -/
def coerceInt : Option Value → ℤ
  | some (.num q) => ratTrunc q
  | some (.str s) => (jsParseInt s).getD 0
  | none => 0

/-- Lines 69–78: the expiry value, `null` when the raw cell is falsy or
absent, otherwise a serial-number conversion
(`new Date(Math.round((raw - 25569)*86400*1000))`) for numeric cells and
`new Date(String(raw))` for the rest. -/
def parseExpiry : Option Value → Option JsDate
  | none => none
  | some v =>
    if valueTruthy v then
      some (match v with
        | .num s => jsDateOfMs (jsRound (rMul (rMul (rSub s 25569) 86400) 1000))
        | .str s => jsDateOfString s)
    else none

/-- Lines 86–106: the update payload for an existing record.
* quantity: the coerced import value unless it is `0`, then the stored one;
* status: `statusRaw ? String(statusRaw) : existing.status`, lowercased;
* unit: `String(unitType || existing.unitType || '')`;
* expiry: the parsed date if valid, else the stored value;
* price: always the coerced import value. -/
def mergeData (p : ParsedRow) (ex : InventoryItem) : UpdateData :=
  let currentQuantity := coerceInt p.currentQuantityRaw
  { sellingPrice := coerceFloat p.sellingPriceRaw
    currentQuantity := if currentQuantity = 0 then ex.currentQuantity else currentQuantity
    unitType :=
      if optTruthy p.unitTypeRaw then jsStringO p.unitTypeRaw else ex.unitType.getD ""
    expiryDate :=
      match parseExpiry p.expiryDateRaw with
      | some (.valid ms) => some ms
      | _ => ex.expiryDate
    status :=
      lowerStr (if optTruthy p.statusRaw then jsStringO p.statusRaw else ex.status) }

/-- Lines 108–121: the freshly created record for an unmatched row.
`status` is `String(statusRaw || 'not yet').toLowerCase()`. -/
def newRecord (p : ParsedRow) (name : String) (i : ℕ) : InventoryItem :=
  { id := i
    itemName := name
    sellingPrice := coerceFloat p.sellingPriceRaw
    currentQuantity := coerceInt p.currentQuantityRaw
    unitType := some (if optTruthy p.unitTypeRaw then jsStringO p.unitTypeRaw else "")
    expiryDate :=
      match parseExpiry p.expiryDateRaw with
      | some (.valid ms) => some ms
      | _ => none
    status := lowerStr (if optTruthy p.statusRaw then jsStringO p.statusRaw else "not yet") }

/-- One iteration of the row loop (lines 48–122).  Returns the new store and
whether the row was counted: a row whose resolved item name is falsy is
skipped (`if (!itemName) continue`); otherwise the row updates the first
record with the same (string-coerced) name, or creates a new record. -/
def processRow (st : Store) (row : Row) : Store × Bool :=
  let p := parseRow row
  if optTruthy p.itemNameRaw then
    let name := jsStringO p.itemNameRaw
    match findByName st name with
    | some ex => (updateItem st ex.id (mergeData p ex), true)
    | none => (createItem st (newRecord p name), true)
  else (st, false)

/-- The whole row loop on the success path: final store and the value of
`count` (lines 47–123). -/
def runImport : Store → List Row → Store × ℕ
  | st, [] => (st, 0)
  | st, r :: rs =>
    let s := processRow st r
    let rest := runImport s.1 rs
    (rest.1, (if s.2 then 1 else 0) + rest.2)

/-- The number of rows whose resolved item-name value is truthy. -/
def countProcessed (rows : List Row) : ℕ :=
  rows.countP (fun r => optTruthy (parseRow r).itemNameRaw)

/-- The row loop with a failure oracle: `fail st r` says whether processing
row `r` from store state `st` raises (a store error — each row performs at
most one write, so a row that raises commits nothing).  On a raise the
`catch` block returns an error response: remaining rows are not processed
and the committed prefix of the store is the error outcome's state. -/
def runImportE (fail : Store → Row → Bool) : Store → List Row → Except Store (Store × ℕ)
  | st, [] => .ok (st, 0)
  | st, r :: rs =>
    if fail st r then .error st
    else
      let s := processRow st r
      match runImportE fail s.1 rs with
      | .error bad => .error bad
      | .ok (fin, c) => .ok (fin, (if s.2 then 1 else 0) + c)

/-- No failure happens while processing a row list from a given state. -/
def noFailUpTo (fail : Store → Row → Bool) : Store → List Row → Prop
  | _, [] => True
  | st, r :: rs => fail st r = false ∧ noFailUpTo fail (processRow st r).1 rs

instance (fail : Store → Row → Bool) : ∀ st rows, Decidable (noFailUpTo fail st rows)
  | _, [] => .isTrue trivial
  | st, r :: rs =>
    have : Decidable (noFailUpTo fail (processRow st r).1 rs) :=
      instDecidableNoFailUpTo fail _ rs
    instDecidableAnd

/-!
## User-facing endpoints

`PUT /api/inventory/[id]` (src/unnamed/part_001) and the create `POST`
(route section of src/src/app/page.tsx).  JSON body fields arrive as
strings or numbers (`Value`); absent optional fields are `none`.
-/

/-- `parseFloat(x)` for a JSON value: numbers stringify and round-trip. -/
def parseFloatV : Value → Option ℚ
  | .num q => some q
  | .str s => jsParseFloat s

/-- `parseInt(x)` for a JSON value. -/
def parseIntV : Value → Option ℤ
  | .num q => some (ratTrunc q)
  | .str s => jsParseInt s

/-- `Number(s)` for a string: surrounding whitespace ignored, empty string
is `0`, otherwise the whole string must be a decimal numeral (sign, digits,
optional point, optional exponent); anything else is `NaN` (`none`). -/
def jsNumberStr (s : String) : Option ℚ :=
  let cs := trimChars s.data
  match cs with
  | [] => some 0
  | _ =>
    let (neg, cs) :=
      match cs with
      | '-' :: rest => (true, rest)
      | '+' :: rest => (false, rest)
      | _ => (false, cs)
    let (ip, ipCnt, cs) := takeDigits cs 0 0
    let (fp, fpCnt, cs) :=
      match cs with
      | '.' :: rest => takeDigits rest 0 0
      | _ => (0, 0, cs)
    if ipCnt + fpCnt = 0 then none
    else
      let mant : ℚ := rAdd (ip : ℚ) (rDiv (fp : ℚ) (pow10 fpCnt))
      let scaled : Option ℚ :=
        match cs with
        | [] => some mant
        | 'e' :: rest | 'E' :: rest =>
          let (sgnE, rest2) :=
            match rest with
            | '-' :: r2 => (true, r2)
            | '+' :: r2 => (false, r2)
            | _ => (false, rest)
          match takeDigits rest2 0 0 with
          | (e, eCnt, []) =>
            if eCnt = 0 then none
            else some (if sgnE then rDiv mant (pow10 e) else rMul mant (pow10 e))
          | _ => none
        | _ => none
      scaled.map (fun q => if neg then rNeg q else q)

/-- `Number(x)` for a JSON value. -/
def jsNumberV : Value → Option ℚ
  | .num q => some q
  | .str s => jsNumberStr s

/-- The JSON body of the `PUT` update endpoint. -/
structure PutBody where
  itemName : String
  sellingPrice : Value
  currentQuantity : Value
  unitType : Option String
  status : String
  expiryDate : Option String
deriving DecidableEq, Repr

/-- The `PUT` handler's `data` applied to a stored record (part_001 lines
19–31): `itemName`, `unitType` and `status` are stored verbatim;
`sellingPrice`/`currentQuantity` via `parseFloat`/`parseInt`;
`expiryDate` is `new Date(body.expiryDate)` when truthy, else `null`.
`none` models the handler failing with a 500 (a `NaN` number or invalid
date cannot be persisted to the typed column). -/
def bodyExpiry : Option String → Option (Option ℤ)
  | none => some none
  | some s =>
    if s.isEmpty then some none
    else
      match jsDateOfString s with
      | .valid ms => some (some ms)
      | .invalid => none

def putUpdateRecord (it : InventoryItem) (b : PutBody) : Option InventoryItem :=
  match parseFloatV b.sellingPrice, parseIntV b.currentQuantity, bodyExpiry b.expiryDate with
  | some sp, some cq, some ed =>
    some { it with
      itemName := b.itemName
      sellingPrice := sp
      currentQuantity := cq
      unitType := b.unitType
      status := b.status
      expiryDate := ed }
  | _, _, _ => none

/-- The JSON body of the create `POST` endpoint.  `itemName`,
`sellingPrice` and `currentQuantity` must be present (the handler rejects
the request otherwise); a falsy `itemName` is also rejected. -/
structure CreateBody where
  itemName : String
  sellingPrice : Value
  currentQuantity : Value
  unitType : Option String
  expiryDate : Option String
  status : Option String
deriving DecidableEq, Repr

/-- The create `POST` handler (page.tsx route section): numbers via
`Number(...)`, `unitType: unitType || ''` (which coincides with
`getD ""` since a falsy string is already `""`), `status: status || 'not
yet'` (stored verbatim, not lowercased), expiry as in the `PUT` handler.
`none` models a rejected or failing request (missing/falsy name, `NaN`,
a non-integral quantity for the integer column, or an invalid date). -/
def createViaApi (st : Store) (b : CreateBody) : Option Store :=
  if b.itemName.isEmpty then none
  else
    match jsNumberV b.sellingPrice, jsNumberV b.currentQuantity, bodyExpiry b.expiryDate with
    | some sp, some cq, some ed =>
      if cq.den = 1 then
        some (createItem st (fun i =>
          { id := i
            itemName := b.itemName
            sellingPrice := sp
            currentQuantity := cq.num
            unitType := some (b.unitType.getD "")
            expiryDate := ed
            status :=
              match b.status with
              | some s => if s.isEmpty then "not yet" else s
              | none => "not yet" }))
      else none
    | _, _, _ => none

/-!
## Infrastructure lemmas
-/

theorem toNat_ofNat_valid (n : ℕ) (h : n < 55296) : (Char.ofNat n).toNat = n := by
  have hv : n.isValidChar := Or.inl h
  simp [Char.ofNat, Char.ofNatAux, Char.toNat, hv, UInt32.toNat, BitVec.toNat_ofNatLt]

theorem lowerChar_idem (c : Char) : lowerChar (lowerChar c) = lowerChar c := by
  unfold lowerChar
  by_cases h : 65 ≤ c.toNat ∧ c.toNat ≤ 90
  · have ht : (Char.ofNat (c.toNat + 32)).toNat = c.toNat + 32 :=
      toNat_ofNat_valid _ (by omega)
    rw [if_pos h, if_neg (by rw [ht]; omega)]
  · simp only [if_neg h]

theorem lowerStr_idem (s : String) : lowerStr (lowerStr s) = lowerStr s := by
  apply congrArg String.mk
  show (s.data.map lowerChar).map lowerChar = s.data.map lowerChar
  rw [List.map_map]
  exact List.map_congr_left (fun c _ => lowerChar_idem c)

theorem find?_map_mem {α : Type} (l : List α) (f : α → α) (q : α → Bool)
    (h : ∀ a ∈ l, q (f a) = q a) :
    (l.map f).find? q = (l.find? q).map f := by
  induction l with
  | nil => rfl
  | cons a t ih =>
    have ha : q (f a) = q a := h a (List.mem_cons_self a t)
    cases hqa : q a with
    | true =>
      rw [List.map_cons, List.find?_cons_of_pos _ (by rw [ha, hqa]),
        List.find?_cons_of_pos _ hqa]
      rfl
    | false =>
      rw [List.map_cons, List.find?_cons_of_neg _ (by simp [ha, hqa]),
        List.find?_cons_of_neg _ (by simp [hqa]),
        ih (fun b hb => h b (List.mem_cons_of_mem _ hb))]

theorem nextId_updateItem (st : Store) (i : ℕ) (d : UpdateData) :
    (updateItem st i d).nextId = st.nextId := rfl

theorem nextId_setById (st : Store) (i : ℕ) (y : InventoryItem) :
    (setById st i y).nextId = st.nextId := rfl

theorem applyUpdate_id (d : UpdateData) (r : InventoryItem) :
    (applyUpdate d r).id = r.id := rfl

theorem applyUpdate_itemName (d : UpdateData) (r : InventoryItem) :
    (applyUpdate d r).itemName = r.itemName := rfl

theorem map_id_updateItem (st : Store) (i : ℕ) (d : UpdateData) :
    (updateItem st i d).items.map (·.id) = st.items.map (·.id) := by
  show (st.items.map (fun r => if r.id = i then applyUpdate d r else r)).map (fun x => x.id) =
    st.items.map (fun x => x.id)
  rw [List.map_map]
  exact List.map_congr_left (fun r _ => by by_cases h : r.id = i <;> simp [h, applyUpdate])

theorem map_id_setById (st : Store) (i : ℕ) (y : InventoryItem) (hy : y.id = i) :
    (setById st i y).items.map (·.id) = st.items.map (·.id) := by
  show (st.items.map (fun r => if r.id = i then y else r)).map (fun x => x.id) =
    st.items.map (fun x => x.id)
  rw [List.map_map]
  exact List.map_congr_left (fun r _ => by by_cases h : r.id = i <;> simp [h, hy])

theorem WF_updateItem {st : Store} (h : WF st) (i : ℕ) (d : UpdateData) :
    WF (updateItem st i d) := by
  refine ⟨?_, ?_⟩
  · intro it hit
    rcases List.mem_map.mp hit with ⟨r, hr, rfl⟩
    have : (if r.id = i then applyUpdate d r else r).id = r.id := by
      by_cases hri : r.id = i <;> simp [hri, applyUpdate]
    rw [nextId_updateItem, this]
    exact h.1 r hr
  · rw [map_id_updateItem]
    exact h.2

theorem WF_setById {st : Store} (h : WF st) {i : ℕ} {y : InventoryItem}
    (hy : y.id = i) (hi : i < st.nextId) : WF (setById st i y) := by
  refine ⟨?_, ?_⟩
  · intro it hit
    rcases List.mem_map.mp hit with ⟨r, hr, rfl⟩
    rw [nextId_setById]
    by_cases hri : r.id = i
    · simpa [hri, hy] using hi
    · simpa [hri] using h.1 r hr
  · rw [map_id_setById st i y hy]
    exact h.2

theorem WF_createItem {st : Store} (h : WF st) {mk : ℕ → InventoryItem}
    (hmk : (mk st.nextId).id = st.nextId) : WF (createItem st mk) := by
  refine ⟨?_, ?_⟩
  · intro it hit
    rcases List.mem_append.mp hit with hold | hnew
    · exact Nat.lt_succ_of_lt (h.1 it hold)
    · rcases List.mem_singleton.mp hnew with rfl
      rw [hmk]
      exact Nat.lt_succ_self _
  · show ((st.items ++ [mk st.nextId]).map (·.id)).Nodup
    rw [List.map_append]
    refine List.nodup_append.mpr ⟨h.2, List.nodup_singleton _, ?_⟩
    intro a ha hb
    rcases List.mem_map.mp ha with ⟨r, hr, rfl⟩
    rcases List.mem_singleton.mp hb with heq
    exact absurd (heq.trans hmk) (Nat.ne_of_lt (h.1 r hr))

theorem eq_of_mem_id {st : Store} (h : WF st) {a b : InventoryItem}
    (ha : a ∈ st.items) (hb : b ∈ st.items) (hid : a.id = b.id) : a = b :=
  List.inj_on_of_nodup_map h.2 ha hb hid

theorem getById_eq_of_mem {st : Store} (h : WF st) {a : InventoryItem}
    (ha : a ∈ st.items) : getById st a.id = some a := by
  unfold getById
  cases hf : st.items.find? (fun r => r.id = a.id) with
  | none =>
    exact absurd (by simp) (List.find?_eq_none.mp hf a ha)
  | some b =>
    have hb := List.mem_of_find?_eq_some hf
    have hpb : b.id = a.id := by simpa using List.find?_some hf
    rw [eq_of_mem_id h hb ha hpb]

theorem findByName_mem {st : Store} {n : String} {x : InventoryItem}
    (hf : findByName st n = some x) : x ∈ st.items :=
  List.mem_of_find?_eq_some hf

theorem findByName_itemName {st : Store} {n : String} {x : InventoryItem}
    (hf : findByName st n = some x) : x.itemName = n := by
  simpa using List.find?_some hf

theorem findByName_updateItem (st : Store) (i : ℕ) (d : UpdateData) (n : String) :
    findByName (updateItem st i d) n =
      (findByName st n).map (fun r => if r.id = i then applyUpdate d r else r) := by
  unfold findByName updateItem
  exact find?_map_mem _ _ _
    (fun r _ => by by_cases h : r.id = i <;> simp [h, applyUpdate])

theorem findByName_setById {st : Store} (h : WF st) {i : ℕ}
    {x y : InventoryItem} (hx : x ∈ st.items) (hxi : x.id = i)
    (hy : y.itemName = x.itemName) (n : String) :
    findByName (setById st i y) n =
      (findByName st n).map (fun r => if r.id = i then y else r) := by
  unfold findByName setById
  apply find?_map_mem
  intro r hr
  by_cases hri : r.id = i
  · have hrx : r = x := eq_of_mem_id h hr hx (hri.trans hxi.symm)
    subst hrx
    simp [hri, hy]
  · simp [hri]

theorem getById_updateItem (st : Store) (i : ℕ) (d : UpdateData) :
    getById (updateItem st i d) i =
      (getById st i).map (fun r => if r.id = i then applyUpdate d r else r) := by
  unfold getById updateItem
  exact find?_map_mem _ _ _
    (fun r _ => by by_cases h : r.id = i <;> simp [h, applyUpdate])

theorem getById_setById (st : Store) {i : ℕ} {y : InventoryItem} (hy : y.id = i) :
    getById (setById st i y) i = (getById st i).map (fun r => if r.id = i then y else r) := by
  unfold getById setById
  apply find?_map_mem
  intro r hr
  by_cases hri : r.id = i <;> simp [hri, hy]

theorem getById_createItem {st : Store} (h : WF st) {mk : ℕ → InventoryItem}
    (hmk : (mk st.nextId).id = st.nextId) :
    getById (createItem st mk) st.nextId = some (mk st.nextId) := by
  unfold getById createItem
  rw [List.find?_append]
  have h1 : st.items.find? (fun r => r.id = st.nextId) = none :=
    List.find?_eq_none.mpr (fun r hr => by simpa using Nat.ne_of_lt (h.1 r hr))
  rw [h1]
  simp [hmk]

theorem findByName_createItem (st : Store) (mk : ℕ → InventoryItem) (n : String) :
    findByName (createItem st mk) n =
      (findByName st n).or
        (if (mk st.nextId).itemName = n then some (mk st.nextId) else none) := by
  unfold findByName createItem
  rw [List.find?_append]
  congr 1
  simp [List.find?_singleton]

theorem updateItem_eq_setById {st : Store} (h : WF st) {i : ℕ}
    {x : InventoryItem} (hx : x ∈ st.items) (hxi : x.id = i) (d : UpdateData) :
    updateItem st i d = setById st i (applyUpdate d x) := by
  cases st with
  | mk items nextId =>
    simp only [updateItem, setById, Store.mk.injEq, and_true]
    apply List.map_congr_left
    intro r hr
    by_cases hri : r.id = i
    · have hrx : r = x := eq_of_mem_id h hr hx (hri.trans hxi.symm)
      subst hrx
      simp [hri]
    · simp [hri]

theorem setById_self {st : Store} (h : WF st) {i : ℕ} {x : InventoryItem}
    (hx : x ∈ st.items) (hxi : x.id = i) : setById st i x = st := by
  cases st with
  | mk items nextId =>
    simp only [setById, Store.mk.injEq, and_true]
    conv_rhs => rw [← List.map_id items]
    apply List.map_congr_left
    intro r hr
    by_cases hri : r.id = i
    · have hrx : r = x := eq_of_mem_id h hr hx (hri.trans hxi.symm)
      subst hrx
      simp [hri]
    · simp [hri]

theorem setById_setById {st : Store} {i : ℕ} {y z : InventoryItem} (hy : y.id = i) :
    setById (setById st i y) i z = setById st i z := by
  cases st with
  | mk items nextId =>
    simp only [setById, List.map_map, Store.mk.injEq, and_true]
    apply List.map_congr_left
    intro r _
    by_cases hri : r.id = i <;> simp [Function.comp, hri, hy]

theorem updateItem_setById_comm {st : Store} {i j : ℕ} {y : InventoryItem}
    (hji : j ≠ i) (hy : y.id = i) (d : UpdateData) :
    updateItem (setById st i y) j d = setById (updateItem st j d) i y := by
  cases st with
  | mk items nextId =>
    simp only [updateItem, setById, List.map_map, Store.mk.injEq, and_true]
    apply List.map_congr_left
    intro r _
    by_cases hri : r.id = i
    · have hrj : ¬ r.id = j := by rw [hri]; exact Ne.symm hji
      simp [Function.comp, hri, hrj, hy, Ne.symm hji]
    · by_cases hrj : r.id = j <;>
        simp [Function.comp, hri, hrj, applyUpdate, hji]

theorem createItem_setById_comm {st : Store} {i : ℕ} {y : InventoryItem}
    {mk : ℕ → InventoryItem} (hmk : (mk st.nextId).id = st.nextId)
    (hi : i < st.nextId) :
    createItem (setById st i y) mk = setById (createItem st mk) i y := by
  cases st with
  | mk items nextId =>
    simp only [createItem, setById, Store.mk.injEq, List.map_append, and_true]
    congr 1
    have : ¬ (mk nextId).id = i := by
      rw [hmk]
      exact Nat.ne_of_gt hi
    simp [this]

/-!
## Characterising one loop iteration
-/

/-- The record an update-branch iteration stores for the matched record. -/
def mergeStep (p : ParsedRow) (x : InventoryItem) : InventoryItem :=
  applyUpdate (mergeData p x) x

/-- Iterated merging of a list of parsed rows into one record. -/
def mergeFold (ps : List ParsedRow) (x : InventoryItem) : InventoryItem :=
  ps.foldl (fun a p => mergeStep p a) x

/-- The parsed forms of the rows whose truthy item name coerces to `n`,
in order. -/
def nParsed (n : String) : List Row → List ParsedRow
  | [] => []
  | r :: rs =>
    let p := parseRow r
    if optTruthy p.itemNameRaw = true ∧ jsStringO p.itemNameRaw = n then
      p :: nParsed n rs
    else nParsed n rs

theorem mergeStep_id (p : ParsedRow) (x : InventoryItem) : (mergeStep p x).id = x.id := rfl

theorem mergeStep_itemName (p : ParsedRow) (x : InventoryItem) :
    (mergeStep p x).itemName = x.itemName := rfl

theorem mergeFold_id (ps : List ParsedRow) (x : InventoryItem) :
    (mergeFold ps x).id = x.id := by
  induction ps generalizing x with
  | nil => rfl
  | cons p ps ih => exact (ih (mergeStep p x)).trans (mergeStep_id p x)

theorem mergeFold_itemName (ps : List ParsedRow) (x : InventoryItem) :
    (mergeFold ps x).itemName = x.itemName := by
  induction ps generalizing x with
  | nil => rfl
  | cons p ps ih => exact (ih (mergeStep p x)).trans (mergeStep_itemName p x)

theorem mergeFold_cons (p : ParsedRow) (ps : List ParsedRow) (x : InventoryItem) :
    mergeFold (p :: ps) x = mergeFold ps (mergeStep p x) := rfl

theorem runImport_cons (st : Store) (r : Row) (rs : List Row) :
    runImport st (r :: rs) =
      ((runImport (processRow st r).1 rs).1,
        (if (processRow st r).2 then 1 else 0) + (runImport (processRow st r).1 rs).2) := rfl

theorem processRow_skip {st : Store} {row : Row}
    (ht : optTruthy (parseRow row).itemNameRaw = false) :
    processRow st row = (st, false) := by
  simp [processRow, ht]

theorem processRow_found {st : Store} (h : WF st) {row : Row} {ex : InventoryItem}
    (ht : optTruthy (parseRow row).itemNameRaw = true)
    (hf : findByName st (jsStringO (parseRow row).itemNameRaw) = some ex) :
    processRow st row = (setById st ex.id (mergeStep (parseRow row) ex), true) := by
  simp only [processRow, ht, if_true, hf]
  rw [updateItem_eq_setById h (findByName_mem hf) rfl]
  rfl

theorem processRow_new {st : Store} {row : Row}
    (ht : optTruthy (parseRow row).itemNameRaw = true)
    (hf : findByName st (jsStringO (parseRow row).itemNameRaw) = none) :
    processRow st row =
      (createItem st (newRecord (parseRow row) (jsStringO (parseRow row).itemNameRaw)), true) := by
  simp only [processRow, ht, if_true, hf]

theorem processRow_counted (st : Store) (row : Row) :
    (processRow st row).2 = optTruthy (parseRow row).itemNameRaw := by
  cases ht : optTruthy (parseRow row).itemNameRaw with
  | false => rw [processRow_skip ht]
  | true =>
    cases hf : findByName st (jsStringO (parseRow row).itemNameRaw) with
    | some ex =>
      simp only [processRow, ht, if_true, hf]
    | none =>
      simp only [processRow, ht, if_true, hf]

theorem newRecord_id (p : ParsedRow) (n : String) (i : ℕ) : (newRecord p n i).id = i := rfl

theorem newRecord_itemName (p : ParsedRow) (n : String) (i : ℕ) :
    (newRecord p n i).itemName = n := rfl

theorem WF_processRow {st : Store} (h : WF st) (row : Row) : WF (processRow st row).1 := by
  cases ht : optTruthy (parseRow row).itemNameRaw with
  | false => rw [processRow_skip ht]; exact h
  | true =>
    cases hf : findByName st (jsStringO (parseRow row).itemNameRaw) with
    | some ex =>
      rw [processRow_found h ht hf]
      exact WF_setById h (mergeStep_id _ ex) (h.1 ex (findByName_mem hf))
    | none =>
      rw [processRow_new ht hf]
      exact WF_createItem h (newRecord_id _ _ _)

theorem WF_runImport {st : Store} (h : WF st) (rows : List Row) :
    WF (runImport st rows).1 := by
  induction rows generalizing st with
  | nil => exact h
  | cons r rs ih => exact ih (WF_processRow h r)

theorem runImport_count (st : Store) (rows : List Row) :
    (runImport st rows).2 = countProcessed rows := by
  induction rows generalizing st with
  | nil => rfl
  | cons r rs ih =>
    rw [runImport_cons]
    show (if (processRow st r).2 then 1 else 0) + (runImport (processRow st r).1 rs).2 =
      countProcessed (r :: rs)
    rw [ih, processRow_counted]
    show _ = List.countP _ (r :: rs)
    rw [List.countP_cons]
    rcases optTruthy (parseRow r).itemNameRaw with _ | _ <;>
      simp [countProcessed, Nat.add_comm]

/-!
## Per-field structure of the merge

Every column written by the update branch has the shape
`if φ(row) then g(row) else ℓ(current)` for a test `φ`, a written value `g`
and a fallback transformation `ℓ` (the identity, except that `status`
re-lowercases and `unitType` collapses a null to `""`).  This section proves
the generic absorption property of folding such updates, used for the
idempotence claim.
-/

section FieldFold

variable {α β : Type}

/-- One field update. -/
def ffield (φ : β → Bool) (g : β → α) (l : α → α) (v : β) (x : α) : α :=
  if φ v then g v else l x

/-- Folding field updates over a list of rows. -/
def ffold (φ : β → Bool) (g : β → α) (l : α → α) (vs : List β) (x : α) : α :=
  vs.foldl (fun a v => ffield φ g l v a) x

theorem ffold_nil (φ : β → Bool) (g : β → α) (l : α → α) (x : α) :
    ffold φ g l [] x = x := rfl

theorem ffold_cons (φ : β → Bool) (g : β → α) (l : α → α) (v : β) (vs : List β) (x : α) :
    ffold φ g l (v :: vs) x = ffold φ g l vs (ffield φ g l v x) := rfl

theorem ffold_stable {φ : β → Bool} {g : β → α} {l : α → α} {vs : List β}
    (hvs : ∀ v ∈ vs, φ v = false) {x : α} (hx : l x = x) :
    ffold φ g l vs x = x := by
  induction vs with
  | nil => rfl
  | cons v vs ih =>
    rw [ffold_cons]
    have : ffield φ g l v x = x := by
      rw [ffield, if_neg (by simp [hvs v (List.mem_cons_self v vs)]), hx]
    rw [this]
    exact ih (fun w hw => hvs w (List.mem_cons_of_mem _ hw))

theorem ffold_indep {φ : β → Bool} {g : β → α} {l : α → α} {vs : List β}
    (h : ∃ v ∈ vs, φ v = true) (x y : α) :
    ffold φ g l vs x = ffold φ g l vs y := by
  induction vs generalizing x y with
  | nil => simp at h
  | cons v vs ih =>
    rw [ffold_cons, ffold_cons]
    by_cases hv : φ v = true
    · rw [ffield, if_pos hv, ffield, if_pos hv]
    · rcases h with ⟨w, hw, hphw⟩
      rcases List.mem_cons.mp hw with rfl | hw'
      · exact absurd hphw hv
      · exact ih ⟨w, hw', hphw⟩ _ _

theorem ffold_absorb {φ : β → Bool} {g : β → α} {l : α → α}
    (v₁ : β) (s₁ : α) (hs : l s₁ = s₁) (hphi : φ v₁ = true → s₁ = g v₁)
    (vs : List β) :
    ffold φ g l vs (ffield φ g l v₁ (ffold φ g l vs s₁)) = ffold φ g l vs s₁ := by
  by_cases h : ∃ v ∈ vs, φ v = true
  · exact ffold_indep h _ s₁
  · have hall : ∀ v ∈ vs, φ v = false := by
      intro v hv
      cases hfv : φ v with
      | true => exact absurd ⟨v, hv, hfv⟩ h
      | false => rfl
    have hx : ffold φ g l vs s₁ = s₁ := ffold_stable hall hs
    rw [hx]
    cases hv1 : φ v₁ with
    | true =>
      rw [ffield, if_pos hv1, ← hphi hv1, hx]
    | false =>
      rw [ffield, if_neg (by simp [hv1]), hs, hx]

end FieldFold

/-!
### The five columns as field updates
-/

def qtyPhi (p : ParsedRow) : Bool := decide (coerceInt p.currentQuantityRaw ≠ 0)

def qtyG (p : ParsedRow) : ℤ := coerceInt p.currentQuantityRaw

def priceG (p : ParsedRow) : ℚ := coerceFloat p.sellingPriceRaw

def unitPhi (p : ParsedRow) : Bool := optTruthy p.unitTypeRaw

def unitG (p : ParsedRow) : Option String := some (jsStringO p.unitTypeRaw)

def unitFallback (x : Option String) : Option String := some (x.getD "")

def expPhi (p : ParsedRow) : Bool :=
  match parseExpiry p.expiryDateRaw with
  | some (.valid _) => true
  | _ => false

def expG (p : ParsedRow) : Option ℤ :=
  match parseExpiry p.expiryDateRaw with
  | some (.valid ms) => some ms
  | _ => none

def statPhi (p : ParsedRow) : Bool := optTruthy p.statusRaw

def statG (p : ParsedRow) : String := lowerStr (jsStringO p.statusRaw)

theorem mergeStep_sellingPrice (p : ParsedRow) (x : InventoryItem) :
    (mergeStep p x).sellingPrice = ffield (fun _ => true) priceG id p x.sellingPrice := rfl

theorem mergeStep_currentQuantity (p : ParsedRow) (x : InventoryItem) :
    (mergeStep p x).currentQuantity = ffield qtyPhi qtyG id p x.currentQuantity := by
  show (if coerceInt p.currentQuantityRaw = 0 then x.currentQuantity
    else coerceInt p.currentQuantityRaw) = _
  by_cases h : coerceInt p.currentQuantityRaw = 0 <;>
    simp [ffield, qtyPhi, qtyG, h]

theorem mergeStep_unitType (p : ParsedRow) (x : InventoryItem) :
    (mergeStep p x).unitType = ffield unitPhi unitG unitFallback p x.unitType := by
  show some (if optTruthy p.unitTypeRaw = true then jsStringO p.unitTypeRaw
    else x.unitType.getD "") = _
  by_cases h : optTruthy p.unitTypeRaw = true <;>
    simp [ffield, unitPhi, unitG, unitFallback, h]

theorem mergeStep_expiryDate (p : ParsedRow) (x : InventoryItem) :
    (mergeStep p x).expiryDate = ffield expPhi expG id p x.expiryDate := by
  show (match parseExpiry p.expiryDateRaw with
    | some (.valid ms) => some ms
    | _ => x.expiryDate) = _
  rcases hpe : parseExpiry p.expiryDateRaw with _ | d
  · simp [ffield, expPhi, expG, hpe]
  · cases d <;> simp [ffield, expPhi, expG, hpe]

theorem mergeStep_status (p : ParsedRow) (x : InventoryItem) :
    (mergeStep p x).status = ffield statPhi statG lowerStr p x.status := by
  show lowerStr (if optTruthy p.statusRaw = true then jsStringO p.statusRaw else x.status) = _
  by_cases h : optTruthy p.statusRaw = true <;>
    simp [ffield, statPhi, statG, h]

theorem mergeFold_sellingPrice (ps : List ParsedRow) (x : InventoryItem) :
    (mergeFold ps x).sellingPrice = ffold (fun _ => true) priceG id ps x.sellingPrice := by
  induction ps generalizing x with
  | nil => rfl
  | cons p ps ih =>
    rw [mergeFold_cons, ffold_cons, ih, mergeStep_sellingPrice]

theorem mergeFold_currentQuantity (ps : List ParsedRow) (x : InventoryItem) :
    (mergeFold ps x).currentQuantity = ffold qtyPhi qtyG id ps x.currentQuantity := by
  induction ps generalizing x with
  | nil => rfl
  | cons p ps ih =>
    rw [mergeFold_cons, ffold_cons, ih, mergeStep_currentQuantity]

theorem mergeFold_unitType (ps : List ParsedRow) (x : InventoryItem) :
    (mergeFold ps x).unitType = ffold unitPhi unitG unitFallback ps x.unitType := by
  induction ps generalizing x with
  | nil => rfl
  | cons p ps ih =>
    rw [mergeFold_cons, ffold_cons, ih, mergeStep_unitType]

theorem mergeFold_expiryDate (ps : List ParsedRow) (x : InventoryItem) :
    (mergeFold ps x).expiryDate = ffold expPhi expG id ps x.expiryDate := by
  induction ps generalizing x with
  | nil => rfl
  | cons p ps ih =>
    rw [mergeFold_cons, ffold_cons, ih, mergeStep_expiryDate]

theorem mergeFold_status (ps : List ParsedRow) (x : InventoryItem) :
    (mergeFold ps x).status = ffold statPhi statG lowerStr ps x.status := by
  induction ps generalizing x with
  | nil => rfl
  | cons p ps ih =>
    rw [mergeFold_cons, ffold_cons, ih, mergeStep_status]

theorem item_ext {a b : InventoryItem} (h1 : a.id = b.id) (h2 : a.itemName = b.itemName)
    (h3 : a.sellingPrice = b.sellingPrice) (h4 : a.currentQuantity = b.currentQuantity)
    (h5 : a.unitType = b.unitType) (h6 : a.expiryDate = b.expiryDate)
    (h7 : a.status = b.status) : a = b := by
  cases a
  cases b
  simp only [InventoryItem.mk.injEq]
  exact ⟨h1, h2, h3, h4, h5, h6, h7⟩

theorem mergeFold_absorb_of_start (p : ParsedRow) (s₁ : InventoryItem)
    (hp : s₁.sellingPrice = priceG p)
    (hq : qtyPhi p = true → s₁.currentQuantity = qtyG p)
    (hu : unitFallback s₁.unitType = s₁.unitType)
    (hup : unitPhi p = true → s₁.unitType = unitG p)
    (he : expPhi p = true → s₁.expiryDate = expG p)
    (hst : lowerStr s₁.status = s₁.status)
    (hstp : statPhi p = true → s₁.status = statG p)
    (ps : List ParsedRow) :
    mergeFold ps (mergeStep p (mergeFold ps s₁)) = mergeFold ps s₁ := by
  apply item_ext
  · rw [mergeFold_id, mergeStep_id, mergeFold_id]
  · rw [mergeFold_itemName, mergeStep_itemName, mergeFold_itemName]
  · simp only [mergeFold_sellingPrice, mergeStep_sellingPrice]
    exact ffold_absorb p s₁.sellingPrice rfl (fun _ => hp) ps
  · simp only [mergeFold_currentQuantity, mergeStep_currentQuantity]
    exact ffold_absorb p s₁.currentQuantity rfl hq ps
  · simp only [mergeFold_unitType, mergeStep_unitType]
    exact ffold_absorb p s₁.unitType hu hup ps
  · simp only [mergeFold_expiryDate, mergeStep_expiryDate]
    exact ffold_absorb p s₁.expiryDate rfl he ps
  · simp only [mergeFold_status, mergeStep_status]
    exact ffold_absorb p s₁.status hst hstp ps

theorem mergeFold_absorb_update (p : ParsedRow) (a : InventoryItem) (ps : List ParsedRow) :
    mergeFold ps (mergeStep p (mergeFold ps (mergeStep p a))) =
      mergeFold ps (mergeStep p a) := by
  apply mergeFold_absorb_of_start
  · rw [mergeStep_sellingPrice]
    simp [ffield]
  · intro h
    rw [mergeStep_currentQuantity, ffield, if_pos h]
  · rw [mergeStep_unitType]
    by_cases h : unitPhi p = true <;> simp [ffield, unitG, unitFallback, h]
  · intro h
    rw [mergeStep_unitType, ffield, if_pos h]
  · intro h
    rw [mergeStep_expiryDate, ffield, if_pos h]
  · rw [mergeStep_status]
    by_cases h : statPhi p = true <;> simp [ffield, statG, h, lowerStr_idem]
  · intro h
    rw [mergeStep_status, ffield, if_pos h]

theorem mergeFold_absorb_create (p : ParsedRow) (n : String) (i : ℕ)
    (ps : List ParsedRow) :
    mergeFold ps (mergeStep p (mergeFold ps (newRecord p n i))) =
      mergeFold ps (newRecord p n i) := by
  apply mergeFold_absorb_of_start
  · rfl
  · intro _
    rfl
  · rfl
  · intro h
    show some (if optTruthy p.unitTypeRaw = true then jsStringO p.unitTypeRaw else "") =
      unitG p
    rw [if_pos (show optTruthy p.unitTypeRaw = true from h)]
    rfl
  · intro _
    rfl
  · show lowerStr (lowerStr _) = lowerStr _
    exact lowerStr_idem _
  · intro h
    show lowerStr (if optTruthy p.statusRaw = true then jsStringO p.statusRaw else "not yet") =
      statG p
    rw [if_pos (show optTruthy p.statusRaw = true from h)]
    rfl

theorem nParsed_cons_pos {n : String} {r : Row} (rs : List Row)
    (ht : optTruthy (parseRow r).itemNameRaw = true)
    (hn : jsStringO (parseRow r).itemNameRaw = n) :
    nParsed n (r :: rs) = parseRow r :: nParsed n rs := by
  simp only [nParsed]
  rw [if_pos ⟨ht, hn⟩]

theorem nParsed_cons_neg {n : String} {r : Row} (rs : List Row)
    (h : ¬(optTruthy (parseRow r).itemNameRaw = true ∧ jsStringO (parseRow r).itemNameRaw = n)) :
    nParsed n (r :: rs) = nParsed n rs := by
  simp only [nParsed]
  rw [if_neg h]

theorem setById_comm {st : Store} {i j : ℕ} {y z : InventoryItem}
    (hij : i ≠ j) (hy : y.id = i) (hz : z.id = j) :
    setById (setById st i y) j z = setById (setById st j z) i y := by
  cases st with
  | mk items nextId =>
    simp only [setById, List.map_map, Store.mk.injEq, and_true]
    apply List.map_congr_left
    intro r _
    by_cases hri : r.id = i
    · have hrj : ¬ r.id = j := by rw [hri]; exact hij
      simp [Function.comp, hri, hrj, hy, hij]
    · by_cases hrj : r.id = j
      · simp [Function.comp, hri, hrj, hz, Ne.symm hij]
      · simp [Function.comp, hri, hrj]

/-- After a run, the first record named `n` is the original one with
all of the sheet's `n`-rows merged in (in sheet order). -/
theorem findByName_runImport {st : Store} (h : WF st) {n : String} {x : InventoryItem}
    (hf : findByName st n = some x) (rows : List Row) :
    findByName (runImport st rows).1 n = some (mergeFold (nParsed n rows) x) := by
  induction rows generalizing st x with
  | nil => simpa using hf
  | cons r rs ih =>
    rw [runImport_cons]
    show findByName (runImport (processRow st r).1 rs).1 n = _
    cases ht : optTruthy (parseRow r).itemNameRaw with
    | false =>
      rw [processRow_skip ht, nParsed_cons_neg rs (by simp [ht])]
      exact ih h hf
    | true =>
      cases hfind : findByName st (jsStringO (parseRow r).itemNameRaw) with
      | some ex =>
        rw [processRow_found h ht hfind]
        have hmem := findByName_mem hfind
        have hWF2 : WF (setById st ex.id (mergeStep (parseRow r) ex)) :=
          WF_setById h (mergeStep_id _ ex) (h.1 ex hmem)
        by_cases hn : jsStringO (parseRow r).itemNameRaw = n
        · have hx : x = ex := by
            rw [hn] at hfind
            exact Option.some_inj.mp (hf.symm.trans hfind)
          subst hx
          have hf2 : findByName (setById st x.id (mergeStep (parseRow r) x)) n =
              some (mergeStep (parseRow r) x) := by
            rw [findByName_setById h hmem rfl (mergeStep_itemName _ x), hf]
            simp
          rw [nParsed_cons_pos rs ht hn, mergeFold_cons]
          exact ih hWF2 hf2
        · have hxid : x.id ≠ ex.id := by
            intro hid
            exact hn (by
              rw [← findByName_itemName hfind,
                ← eq_of_mem_id h (findByName_mem hf) hmem hid,
                findByName_itemName hf])
          have hf2 : findByName (setById st ex.id (mergeStep (parseRow r) ex)) n =
              some x := by
            rw [findByName_setById h hmem rfl (mergeStep_itemName _ ex), hf]
            simp [hxid]
          rw [nParsed_cons_neg rs (by simp [hn])]
          exact ih hWF2 hf2
      | none =>
        rw [processRow_new ht hfind]
        have hn : jsStringO (parseRow r).itemNameRaw ≠ n := by
          intro he
          rw [he, hf] at hfind
          exact Option.noConfusion hfind
        have hWF2 : WF (createItem st
            (newRecord (parseRow r) (jsStringO (parseRow r).itemNameRaw))) :=
          WF_createItem h rfl
        have hf2 : findByName (createItem st
            (newRecord (parseRow r) (jsStringO (parseRow r).itemNameRaw))) n = some x := by
          rw [findByName_createItem, hf]
          rfl
        rw [nParsed_cons_neg rs (by simp [hn])]
        exact ih hWF2 hf2

/-- Replacing the first record named `n` (keeping its id and name) before a
run changes the run's result only at that record, which receives the merge
chain started from the replacement. -/
theorem runImport_setById {st : Store} (h : WF st) {n : String} {x y : InventoryItem}
    (hf : findByName st n = some x) (hy : y.id = x.id) (hyn : y.itemName = x.itemName)
    (rows : List Row) :
    (runImport (setById st x.id y) rows).1 =
      setById (runImport st rows).1 x.id (mergeFold (nParsed n rows) y) := by
  induction rows generalizing st x y with
  | nil => rfl
  | cons r rs ih =>
    have hmem := findByName_mem hf
    have hxlt : x.id < st.nextId := h.1 x hmem
    have hWFp : WF (setById st x.id y) := WF_setById h hy hxlt
    rw [runImport_cons, runImport_cons]
    show (runImport (processRow (setById st x.id y) r).1 rs).1 =
      setById (runImport (processRow st r).1 rs).1 x.id (mergeFold (nParsed n (r :: rs)) y)
    cases ht : optTruthy (parseRow r).itemNameRaw with
    | false =>
      rw [processRow_skip ht, processRow_skip ht, nParsed_cons_neg rs (by simp [ht])]
      exact ih h hf hy hyn
    | true =>
      by_cases hn : jsStringO (parseRow r).itemNameRaw = n
      · -- the row hits the tracked record
        have hfind : findByName st (jsStringO (parseRow r).itemNameRaw) = some x := by
          rw [hn]; exact hf
        have hfindp : findByName (setById st x.id y)
            (jsStringO (parseRow r).itemNameRaw) = some y := by
          rw [findByName_setById h hmem rfl hyn, hfind]
          simp
        rw [processRow_found h ht hfind, processRow_found hWFp ht hfindp, hy,
          setById_setById hy]
        have hWF2 : WF (setById st x.id (mergeStep (parseRow r) x)) :=
          WF_setById h (mergeStep_id _ x) hxlt
        have hf2 : findByName (setById st x.id (mergeStep (parseRow r) x)) n =
            some (mergeStep (parseRow r) x) := by
          rw [findByName_setById h hmem rfl (mergeStep_itemName _ x), hf]
          simp
        have hy2 : (mergeStep (parseRow r) y).id = (mergeStep (parseRow r) x).id := by
          rw [mergeStep_id, mergeStep_id, hy]
        have hyn2 : (mergeStep (parseRow r) y).itemName =
            (mergeStep (parseRow r) x).itemName := by
          rw [mergeStep_itemName, mergeStep_itemName, hyn]
        have hIH := ih hWF2 hf2 hy2 hyn2
        rw [mergeStep_id, setById_setById (mergeStep_id (parseRow r) x)] at hIH
        rw [nParsed_cons_pos rs ht hn, mergeFold_cons]
        exact hIH
      · cases hfind : findByName st (jsStringO (parseRow r).itemNameRaw) with
        | some ex =>
          have hexmem := findByName_mem hfind
          have hexid : ex.id ≠ x.id := by
            intro hid
            exact hn (by
              rw [← findByName_itemName hfind, eq_of_mem_id h hexmem hmem hid,
                findByName_itemName hf])
          have hfindp : findByName (setById st x.id y)
              (jsStringO (parseRow r).itemNameRaw) = some ex := by
            rw [findByName_setById h hmem rfl hyn, hfind]
            simp [hexid]
          rw [processRow_found h ht hfind, processRow_found hWFp ht hfindp,
            setById_comm (Ne.symm hexid) hy (mergeStep_id (parseRow r) ex)]
          have hWF2 : WF (setById st ex.id (mergeStep (parseRow r) ex)) :=
            WF_setById h (mergeStep_id _ ex) (h.1 ex hexmem)
          have hf2 : findByName (setById st ex.id (mergeStep (parseRow r) ex)) n =
              some x := by
            rw [findByName_setById h hexmem rfl (mergeStep_itemName _ ex), hf]
            simp [Ne.symm hexid]
          rw [nParsed_cons_neg rs (by simp [hn])]
          exact ih hWF2 hf2 hy hyn
        | none =>
          have hfindp : findByName (setById st x.id y)
              (jsStringO (parseRow r).itemNameRaw) = none := by
            rw [findByName_setById h hmem rfl hyn, hfind]
            rfl
          rw [processRow_new ht hfind, processRow_new ht hfindp,
            createItem_setById_comm rfl hxlt]
          have hWF2 : WF (createItem st
              (newRecord (parseRow r) (jsStringO (parseRow r).itemNameRaw))) :=
            WF_createItem h rfl
          have hf2 : findByName (createItem st
              (newRecord (parseRow r) (jsStringO (parseRow r).itemNameRaw))) n = some x := by
            rw [findByName_createItem, hf]
            rfl
          rw [nParsed_cons_neg rs (by simp [hn])]
          exact ih hWF2 hf2 hy hyn

/-- Re-running a sheet over the store it produced changes no record. -/
theorem runImport_store_idem {st : Store} (h : WF st) (rows : List Row) :
    (runImport (runImport st rows).1 rows).1 = (runImport st rows).1 := by
  induction rows generalizing st with
  | nil => rfl
  | cons r rs ih =>
    cases ht : optTruthy (parseRow r).itemNameRaw with
    | false =>
      have h1 : (runImport st (r :: rs)).1 = (runImport st rs).1 := by
        rw [runImport_cons, processRow_skip ht]
      rw [h1]
      have h2 : (runImport (runImport st rs).1 (r :: rs)).1 =
          (runImport (runImport st rs).1 rs).1 := by
        rw [runImport_cons, processRow_skip ht]
      rw [h2]
      exact ih h
    | true =>
      cases hfind : findByName st (jsStringO (parseRow r).itemNameRaw) with
      | some ex =>
        have hmem := findByName_mem hfind
        have hWF2 : WF (setById st ex.id (mergeStep (parseRow r) ex)) :=
          WF_setById h (mergeStep_id _ ex) (h.1 ex hmem)
        have hf2 : findByName (setById st ex.id (mergeStep (parseRow r) ex))
            (jsStringO (parseRow r).itemNameRaw) = some (mergeStep (parseRow r) ex) := by
          rw [findByName_setById h hmem rfl (mergeStep_itemName _ ex), hfind]
          simp
        have hWFB : WF (runImport (setById st ex.id (mergeStep (parseRow r) ex)) rs).1 :=
          WF_runImport hWF2 rs
        have hfB := findByName_runImport hWF2 hf2 rs
        have h1 : (runImport st (r :: rs)).1 =
            (runImport (setById st ex.id (mergeStep (parseRow r) ex)) rs).1 := by
          rw [runImport_cons, processRow_found h ht hfind]
        rw [h1]
        have h2 : (runImport
              (runImport (setById st ex.id (mergeStep (parseRow r) ex)) rs).1 (r :: rs)).1 =
            (runImport (setById
              (runImport (setById st ex.id (mergeStep (parseRow r) ex)) rs).1
              (mergeFold (nParsed (jsStringO (parseRow r).itemNameRaw) rs)
                (mergeStep (parseRow r) ex)).id
              (mergeStep (parseRow r)
                (mergeFold (nParsed (jsStringO (parseRow r).itemNameRaw) rs)
                  (mergeStep (parseRow r) ex)))) rs).1 := by
          rw [runImport_cons, processRow_found hWFB ht hfB]
        rw [h2]
        have hP := runImport_setById hWFB hfB
          (mergeStep_id (parseRow r) _) (mergeStep_itemName (parseRow r) _) rs
        rw [hP, ih hWF2, mergeFold_absorb_update (parseRow r) ex]
        exact setById_self hWFB (findByName_mem hfB) rfl
      | none =>
        have hWF2 : WF (createItem st
            (newRecord (parseRow r) (jsStringO (parseRow r).itemNameRaw))) :=
          WF_createItem h rfl
        have hf2 : findByName (createItem st
              (newRecord (parseRow r) (jsStringO (parseRow r).itemNameRaw)))
            (jsStringO (parseRow r).itemNameRaw) =
            some (newRecord (parseRow r) (jsStringO (parseRow r).itemNameRaw) st.nextId) := by
          rw [findByName_createItem, hfind]
          simp [newRecord_itemName]
        have hWFB : WF (runImport (createItem st
            (newRecord (parseRow r) (jsStringO (parseRow r).itemNameRaw))) rs).1 :=
          WF_runImport hWF2 rs
        have hfB := findByName_runImport hWF2 hf2 rs
        have h1 : (runImport st (r :: rs)).1 =
            (runImport (createItem st
              (newRecord (parseRow r) (jsStringO (parseRow r).itemNameRaw))) rs).1 := by
          rw [runImport_cons, processRow_new ht hfind]
        rw [h1]
        have h2 : (runImport
              (runImport (createItem st
                (newRecord (parseRow r) (jsStringO (parseRow r).itemNameRaw))) rs).1
              (r :: rs)).1 =
            (runImport (setById
              (runImport (createItem st
                (newRecord (parseRow r) (jsStringO (parseRow r).itemNameRaw))) rs).1
              (mergeFold (nParsed (jsStringO (parseRow r).itemNameRaw) rs)
                (newRecord (parseRow r) (jsStringO (parseRow r).itemNameRaw) st.nextId)).id
              (mergeStep (parseRow r)
                (mergeFold (nParsed (jsStringO (parseRow r).itemNameRaw) rs)
                  (newRecord (parseRow r) (jsStringO (parseRow r).itemNameRaw)
                    st.nextId)))) rs).1 := by
          rw [runImport_cons, processRow_found hWFB ht hfB]
        rw [h2]
        have hP := runImport_setById hWFB hfB
          (mergeStep_id (parseRow r) _) (mergeStep_itemName (parseRow r) _) rs
        rw [hP, ih hWF2, mergeFold_absorb_create (parseRow r)
          (jsStringO (parseRow r).itemNameRaw) st.nextId]
        exact setById_self hWFB (findByName_mem hfB) rfl

/-!
## Claim theorems
-/

/-- The stored record with the matched id after an update-branch iteration. -/
theorem getById_processRow_found {st : Store} (h : WF st) {row : Row} {ex : InventoryItem}
    (ht : optTruthy (parseRow row).itemNameRaw = true)
    (hf : findByName st (jsStringO (parseRow row).itemNameRaw) = some ex) :
    getById (processRow st row).1 ex.id = some (mergeStep (parseRow row) ex) := by
  rw [processRow_found h ht hf]
  show getById (setById st ex.id (mergeStep (parseRow row) ex)) ex.id = _
  rw [getById_setById st (mergeStep_id _ ex), getById_eq_of_mem h (findByName_mem hf)]
  simp

/-- Claim C1: for an import row matching an existing record, the updated
`currentQuantity` is the coerced import quantity when that coercion is
nonzero, and the record's prior quantity when the coercion yields exactly 0
(blank and unparsable cells coerce to 0). -/
theorem claim_c1_quantity_merge (st : Store) (row : Row) (ex : InventoryItem)
    (h : WF st) (ht : optTruthy (parseRow row).itemNameRaw = true)
    (hf : findByName st (jsStringO (parseRow row).itemNameRaw) = some ex) :
    (getById (processRow st row).1 ex.id).map (fun r => r.currentQuantity) =
      some (if coerceInt (parseRow row).currentQuantityRaw = 0 then ex.currentQuantity
        else coerceInt (parseRow row).currentQuantityRaw) := by
  rw [getById_processRow_found h ht hf]
  simp only [Option.map_some']
  rw [mergeStep_currentQuantity]
  by_cases hq : coerceInt (parseRow row).currentQuantityRaw = 0 <;>
    simp [ffield, qtyPhi, qtyG, hq]

def c1Item : InventoryItem :=
  { id := 1, itemName := "Widget", sellingPrice := 10, currentQuantity := 50,
    unitType := some "pcs", expiryDate := none, status := "not yet" }

def c1Store : Store := { items := [c1Item], nextId := 2 }

def c1RowTwelve : Row := [("Item Name", Value.str "Widget"), ("Current Quantity", Value.str "12")]

def c1RowBlank : Row := [("Item Name", Value.str "Widget"), ("Current Quantity", Value.str "")]

/-- Witness for C1: an existing quantity of 50 becomes 12 for a cell of
`"12"` and stays 50 for a blank cell. -/
theorem claim_c1_quantity_merge_witness :
    (getById (processRow c1Store c1RowTwelve).1 1).map (fun r => r.currentQuantity) = some 12 ∧
    (getById (processRow c1Store c1RowBlank).1 1).map (fun r => r.currentQuantity) = some 50 :=
  ⟨(claim_c1_quantity_merge c1Store c1RowTwelve c1Item (by decide) (by decide)
      (by decide)).trans (by decide),
   (claim_c1_quantity_merge c1Store c1RowBlank c1Item (by decide) (by decide)
      (by decide)).trans (by decide)⟩

def c2Item : InventoryItem :=
  { id := 1, itemName := "Noodles", sellingPrice := 5, currentQuantity := 3,
    unitType := some "", expiryDate := none, status := "checked" }

def c2Store : Store := { items := [c2Item], nextId := 2 }

def c2Row : Row := [("Item Name", Value.str "Noodles"), ("Status", Value.str "")]

/-- Counterexample to C2 as stated: in `c2Row` the raw status cell is
present under the resolvable header `"Status"` (it is the explicit empty
string), so the claim demands the stored status become the lowercased cell
(`""`); the engine instead tests truthiness (`statusRaw ? … : existing`)
and keeps `"checked"`. -/
theorem claim_c2_counterexample :
    rowGet c2Row (fieldKey c2Row ["status"]) = some (Value.str "") ∧
    (getById (processRow c2Store c2Row).1 1).map (fun r => r.status) = some "checked" ∧
    ("checked" : String) ≠ lowerStr "" := by
  decide

/-- Claim C2 (amended): the stored status is overwritten with the lowercased
raw cell exactly when the raw status cell is present AND truthy (non-empty
string, nonzero number); otherwise the lowercase image of the existing
status is stored (a no-op whenever the stored status is already
lowercase). -/
theorem claim_c2_status_merge (st : Store) (row : Row) (ex : InventoryItem)
    (h : WF st) (ht : optTruthy (parseRow row).itemNameRaw = true)
    (hf : findByName st (jsStringO (parseRow row).itemNameRaw) = some ex) :
    (getById (processRow st row).1 ex.id).map (fun r => r.status) =
      some (if optTruthy (parseRow row).statusRaw = true
        then lowerStr (jsStringO (parseRow row).statusRaw)
        else lowerStr ex.status) := by
  rw [getById_processRow_found h ht hf]
  simp only [Option.map_some']
  rw [mergeStep_status]
  by_cases hs : optTruthy (parseRow row).statusRaw = true <;>
    simp [ffield, statPhi, statG, hs]

def c2RowNew : Row := [("Item Name", Value.str "Noodles"), ("Status", Value.str "NEW")]

def c2RowNone : Row := [("Item Name", Value.str "Noodles")]

/-- Witness for the amended C2: a truthy cell `"NEW"` is stored lowercased
as `"new"`; an absent cell leaves the (already lowercase) status
`"checked"`. -/
theorem claim_c2_status_merge_witness :
    (getById (processRow c2Store c2RowNew).1 1).map (fun r => r.status) = some "new" ∧
    (getById (processRow c2Store c2RowNone).1 1).map (fun r => r.status) = some "checked" :=
  ⟨(claim_c2_status_merge c2Store c2RowNew c2Item (by decide) (by decide)
      (by decide)).trans (by decide),
   (claim_c2_status_merge c2Store c2RowNone c2Item (by decide) (by decide)
      (by decide)).trans (by decide)⟩

/-- Claim C8: for an import row matching an existing record, the stored
`expiryDate` becomes the parsed date exactly when the import produced a
valid date, and remains the existing expiry otherwise (absent cell,
unparsable text, or invalid result). -/
theorem claim_c8_expiry_merge (st : Store) (row : Row) (ex : InventoryItem)
    (h : WF st) (ht : optTruthy (parseRow row).itemNameRaw = true)
    (hf : findByName st (jsStringO (parseRow row).itemNameRaw) = some ex) :
    (getById (processRow st row).1 ex.id).map (fun r => r.expiryDate) =
      some (match parseExpiry (parseRow row).expiryDateRaw with
        | some (JsDate.valid ms) => some ms
        | _ => ex.expiryDate) := by
  rw [getById_processRow_found h ht hf]
  simp only [Option.map_some']
  rfl

def c8Item : InventoryItem :=
  { id := 1, itemName := "Milk", sellingPrice := 2, currentQuantity := 6,
    unitType := some "l", expiryDate := some (20089 * 86400000), status := "not yet" }

def c8Store : Store := { items := [c8Item], nextId := 2 }

def c8Row : Row := [("Item Name", Value.str "Milk"), ("Expiry Date", Value.str "soon")]

/-- Witness for C8: an existing expiry of 2025-01-01 (day 20089 since the
epoch) survives an import row whose expiry cell `"soon"` does not parse. -/
theorem claim_c8_expiry_merge_witness :
    (getById (processRow c8Store c8Row).1 1).map (fun r => r.expiryDate) =
      some (some (20089 * 86400000)) :=
  (claim_c8_expiry_merge c8Store c8Row c8Item (by decide) (by decide)
    (by decide)).trans (by decide)

def c4Row : Row := [("item name", Value.num 0)]

/-- Counterexample to C4 as stated: the row `c4Row` resolves an item-name
value (the numeric cell `0`), yet the engine's `if (!itemName) continue`
skips it — no mutation, not counted — because the resolved value is falsy,
not because no value could be resolved. -/
theorem claim_c4_counterexample :
    (parseRow c4Row).itemNameRaw = some (Value.num 0) ∧
    processRow { items := [], nextId := 0 } c4Row = ({ items := [], nextId := 0 }, false) := by
  decide

/-- Claim C4 (amended): a parsed row is silently skipped — not counted and
producing no store mutation — exactly when its resolved item-name value is
absent or falsy (empty string or the number 0); every row whose resolved
item-name value is truthy is counted. -/
theorem claim_c4_skip_iff (st : Store) (row : Row) :
    ((processRow st row).2 = false ↔ optTruthy (parseRow row).itemNameRaw = false) ∧
    (optTruthy (parseRow row).itemNameRaw = false → processRow st row = (st, false)) := by
  constructor
  · rw [processRow_counted]
  · exact processRow_skip

def c4wItem : InventoryItem :=
  { id := 0, itemName := "Soap", sellingPrice := 1, currentQuantity := 4,
    unitType := some "", expiryDate := none, status := "not yet" }

def c4wStore : Store := { items := [c4wItem], nextId := 1 }

def c4wRow : Row := [("Price", Value.str "3")]

/-- Witness for the amended C4: a row with no item-name value at all is
skipped, leaving the store untouched and uncounted. -/
theorem claim_c4_skip_iff_witness :
    processRow c4wStore c4wRow = (c4wStore, false) :=
  (claim_c4_skip_iff c4wStore c4wRow).2 (by decide)

def c7Row : Row := [("Item Name", Value.str "Gadget"), ("Status", Value.str "")]

def c7EmptyStore : Store := { items := [], nextId := 0 }

/-- Counterexample to C7 as stated: the row `c7Row` matches no existing
record and its status cell is present (resolved, the empty string), so the
claim's "status as resolved — defaulting to `not yet` when absent —
normalized to lowercase" demands the created status be `""`; the engine's
`String(statusRaw || 'not yet')` defaults on any falsy value and stores
`"not yet"`. -/
theorem claim_c7_counterexample :
    rowGet c7Row (fieldKey c7Row ["status"]) = some (Value.str "") ∧
    (getById (processRow c7EmptyStore c7Row).1 0).map (fun r => r.status) = some "not yet" ∧
    ("not yet" : String) ≠ lowerStr "" := by
  decide

/-- Claim C7 (amended): an import row matching no existing record creates a
record with `sellingPrice` and `currentQuantity` exactly as coerced
(including zero), `unitType` the string of the resolved value when truthy
else the empty string, `expiryDate` the parsed date if valid else null, and
`status` the resolved value when truthy — defaulting to `"not yet"` when the
cell is absent or falsy — normalized to lowercase. -/
theorem claim_c7_create_fields (st : Store) (row : Row)
    (h : WF st) (ht : optTruthy (parseRow row).itemNameRaw = true)
    (hf : findByName st (jsStringO (parseRow row).itemNameRaw) = none) :
    getById (processRow st row).1 st.nextId = some
      { id := st.nextId
        itemName := jsStringO (parseRow row).itemNameRaw
        sellingPrice := coerceFloat (parseRow row).sellingPriceRaw
        currentQuantity := coerceInt (parseRow row).currentQuantityRaw
        unitType := some (if optTruthy (parseRow row).unitTypeRaw = true
          then jsStringO (parseRow row).unitTypeRaw else "")
        expiryDate :=
          match parseExpiry (parseRow row).expiryDateRaw with
          | some (JsDate.valid ms) => some ms
          | _ => none
        status := lowerStr (if optTruthy (parseRow row).statusRaw = true
          then jsStringO (parseRow row).statusRaw else "not yet") } := by
  rw [processRow_new ht hf]
  exact getById_createItem h rfl

def c7wRow : Row :=
  [("Item Name", Value.str "Gizmo"), ("Selling Price", Value.str "19.99"),
   ("Current Quantity", Value.str "3")]

/-- Witness for the amended C7: importing an unmatched row with
`sellingPrice="19.99"` and `currentQuantity="3"` creates a record with
exactly those coerced values and status `"not yet"`. -/
theorem claim_c7_create_fields_witness :
    getById (processRow c7EmptyStore c7wRow).1 0 = some
      { id := 0, itemName := "Gizmo", sellingPrice := mkRat 1999 100,
        currentQuantity := 3, unitType := some "", expiryDate := none,
        status := "not yet" } :=
  (claim_c7_create_fields c7EmptyStore c7wRow (by decide) (by decide)
    (by decide)).trans (by decide)

theorem findSome?_map_option {α γ δ : Type} (l : List α) (f : α → Option γ) (g : γ → δ) :
    l.findSome? (fun a => (f a).map g) = (l.findSome? f).map g := by
  induction l with
  | nil => rfl
  | cons a t ih =>
    cases hfa : f a with
    | none =>
      rw [List.findSome?_cons_of_isNone _ (by simp [hfa]),
        List.findSome?_cons_of_isNone _ (by simp [hfa]), ih]
    | some c =>
      rw [List.findSome?_cons_of_isSome _ (by simp [hfa]),
        List.findSome?_cons_of_isSome _ (by simp [hfa])]

theorem rowGet_of_find_norm {row : Row} {t : String} {pr : String × Value}
    (hf : row.find? (fun p => normKey p.1 = t) = some pr) :
    rowGet row pr.1 = some pr.2 := by
  induction row with
  | nil => cases hf
  | cons hd tl ih =>
    by_cases hh : normKey hd.1 = t
    · rw [List.find?_cons_of_pos _ (by simp [hh])] at hf
      obtain rfl := Option.some_inj.mp hf
      unfold rowGet
      rw [List.find?_cons_of_pos _ (by simp)]
      rfl
    · rw [List.find?_cons_of_neg _ (by simp [hh])] at hf
      have hprq : normKey pr.1 = t := by simpa using List.find?_some hf
      have hne : ¬ hd.1 = pr.1 := fun he => hh (by rw [he, hprq])
      have htl := ih hf
      unfold rowGet at htl ⊢
      rw [List.find?_cons_of_neg _ (by simp [hne])]
      exact htl

/-- The value a field resolves to: the cell of the first header that
norm-matches the first alias with any match; with no match at all, the
engine indexes the row at the empty-string key (`getKey(…) || ''`). -/
theorem fieldVal_char (row : Row) (aliases : List String) :
    fieldVal row aliases =
      match aliases.findSome? (fun a => row.find? (fun p => normKey p.1 = normKey a)) with
      | some pr => some pr.2
      | none => rowGet row "" := by
  unfold fieldVal fieldKey getKey
  rw [findSome?_map_option aliases
    (fun a => row.find? (fun p => normKey p.1 = normKey a)) (fun p => p.1)]
  cases hfs : aliases.findSome? (fun a => row.find? (fun p => normKey p.1 = normKey a)) with
  | none => simp
  | some pr =>
    simp only [Option.map_some', Option.getD_some]
    rcases List.exists_of_findSome?_eq_some hfs with ⟨a, _, hFa⟩
    exact rowGet_of_find_norm hFa

/-- Two rows whose headers agree up to case and surrounding whitespace and
whose cell values agree pointwise. -/
def rowEquiv (r1 r2 : Row) : Prop :=
  List.Forall₂ (fun p q => normKey p.1 = normKey q.1 ∧ p.2 = q.2) r1 r2

theorem find?_rowEquiv {r1 r2 : Row} (h : rowEquiv r1 r2) (t : String) :
    (r1.find? (fun p => normKey p.1 = t) = none ∧
      r2.find? (fun p => normKey p.1 = t) = none) ∨
    (∃ pr1 pr2, r1.find? (fun p => normKey p.1 = t) = some pr1 ∧
      r2.find? (fun p => normKey p.1 = t) = some pr2 ∧ pr1.2 = pr2.2) := by
  induction h with
  | nil => exact Or.inl ⟨rfl, rfl⟩
  | cons hpq htail ih =>
    rename_i a b l1 l2
    by_cases hp : normKey a.1 = t
    · have hq : normKey b.1 = t := by rw [← hpq.1]; exact hp
      exact Or.inr ⟨a, b, by rw [List.find?_cons_of_pos _ (by simp [hp])],
        by rw [List.find?_cons_of_pos _ (by simp [hq])], hpq.2⟩
    · have hq : ¬ normKey b.1 = t := by rw [← hpq.1]; exact hp
      rw [List.find?_cons_of_neg _ (by simp [hp]), List.find?_cons_of_neg _ (by simp [hq])]
      exact ih

theorem findSome?_rowEquiv {r1 r2 : Row} (h : rowEquiv r1 r2) (aliases : List String) :
    (aliases.findSome? (fun a => r1.find? (fun p => normKey p.1 = normKey a)) = none ∧
      aliases.findSome? (fun a => r2.find? (fun p => normKey p.1 = normKey a)) = none) ∨
    (∃ pr1 pr2,
      aliases.findSome? (fun a => r1.find? (fun p => normKey p.1 = normKey a)) = some pr1 ∧
      aliases.findSome? (fun a => r2.find? (fun p => normKey p.1 = normKey a)) = some pr2 ∧
      pr1.2 = pr2.2) := by
  induction aliases with
  | nil => exact Or.inl ⟨rfl, rfl⟩
  | cons a as ih =>
    rcases find?_rowEquiv h (normKey a) with ⟨h1, h2⟩ | ⟨pr1, pr2, h1, h2, hv⟩
    · rw [List.findSome?_cons_of_isNone _ (by simp [h1]),
        List.findSome?_cons_of_isNone _ (by simp [h2])]
      exact ih
    · exact Or.inr ⟨pr1, pr2,
        by rw [List.findSome?_cons_of_isSome _ (by simp [h1]), h1],
        by rw [List.findSome?_cons_of_isSome _ (by simp [h2]), h2], hv⟩

def c5QuirkRow : Row := [("", Value.str "x")]

def c5SpaceRow : Row := [(" ", Value.str "x")]

/-- Counterexample to C5 as stated: in `c5QuirkRow` no header norm-matches
the alias `"status"`, so the claim demands the field be absent; but the
engine indexes `row[getKey('status') || '']`, i.e. `row['']`, and a
literally empty header makes the field resolve to that column's value.
Consequently resolution is not invariant under surrounding whitespace
either: replacing the header `""` by `" "` (norm-equal, same cell value)
flips the resolved field from `some "x"` to absent. -/
theorem claim_c5_counterexample :
    (∀ a ∈ (["status"] : List String), ∀ p ∈ c5QuirkRow, normKey p.1 ≠ normKey a) ∧
    fieldVal c5QuirkRow ["status"] = some (Value.str "x") ∧
    rowEquiv c5QuirkRow c5SpaceRow ∧
    fieldVal c5SpaceRow ["status"] = none := by
  refine ⟨by decide, by decide, ?_, by decide⟩
  exact List.Forall₂.cons ⟨by decide, rfl⟩ List.Forall₂.nil

/-- Claim C5 (amended): header resolution tries the field's ordered alias
list; the first alias matching any row header case-insensitively with
surrounding whitespace trimmed wins, and the resolved value is that
header's cell.  If no alias matches, the engine falls back to indexing the
row at the literal empty-string key (absent unless the row has a
literally-empty header, which standard sheet parses never produce).
Hence resolution is invariant under changing only the case or surrounding
whitespace of headers whenever some alias matches — e.g. `" Item Name "`
and `"ITEMNAME"` both resolve to the item-name field. -/
theorem claim_c5_header_resolution :
    (∀ (row : Row) (aliases : List String),
      fieldVal row aliases =
        match aliases.findSome? (fun a => row.find? (fun p => normKey p.1 = normKey a)) with
        | some pr => some pr.2
        | none => rowGet row "") ∧
    (∀ (r1 r2 : Row) (aliases : List String), rowEquiv r1 r2 →
      (∃ a ∈ aliases, ∃ p ∈ r1, normKey p.1 = normKey a) →
      fieldVal r1 aliases = fieldVal r2 aliases) ∧
    (∀ v : Value,
      fieldVal [(" Item Name ", v)] ["item name", "itemname"] = some v ∧
      fieldVal [("ITEMNAME", v)] ["item name", "itemname"] = some v) := by
  refine ⟨fieldVal_char, ?_, ?_⟩
  · intro r1 r2 aliases heq hex
    rw [fieldVal_char, fieldVal_char]
    rcases findSome?_rowEquiv heq aliases with ⟨h1, h2⟩ | ⟨pr1, pr2, h1, h2, hv⟩
    · exfalso
      rcases hex with ⟨a, ha, p, hp, hmatch⟩
      have hf1 := List.findSome?_eq_none_iff.mp h1 a ha
      exact List.find?_eq_none.mp hf1 p hp (by simp [hmatch])
    · rw [h1, h2]
      show some pr1.2 = some pr2.2
      rw [hv]
  · intro v
    exact ⟨rfl, rfl⟩

def c5wRowSpaced : Row := [(" Item Name ", Value.str "Pen"), ("Qty", Value.num 2)]

def c5wRowLower : Row := [("item name", Value.str "Pen"), ("Qty", Value.num 2)]

/-- Witness for the amended C5: resolution of the item-name field agrees on
two rows whose headers differ only in case and surrounding whitespace. -/
theorem claim_c5_header_resolution_witness :
    fieldVal c5wRowSpaced ["item name", "itemname"] =
      fieldVal c5wRowLower ["item name", "itemname"] :=
  claim_c5_header_resolution.2.1 c5wRowSpaced c5wRowLower ["item name", "itemname"]
    (List.Forall₂.cons ⟨by decide, rfl⟩ (List.Forall₂.cons ⟨by decide, rfl⟩ List.Forall₂.nil))
    ⟨"item name", by decide, (" Item Name ", Value.str "Pen"), by decide, by decide⟩

def c3Item : InventoryItem :=
  { id := 1, itemName := "Thing", sellingPrice := 5, currentQuantity := 5,
    unitType := some "", expiryDate := none, status := "not yet" }

def c3Put : PutBody :=
  { itemName := "Thing", sellingPrice := Value.str "5", currentQuantity := Value.str "-7",
    unitType := some "", status := "NEW", expiryDate := none }

def c3NegRow : Row := [("Item Name", Value.str "Cheap"), ("Price", Value.str "-5")]

/-- Counterexample to C3 as stated: the user edit endpoint stores the
submitted status `"NEW"` verbatim (not lowercase) and the quantity `-7`
(negative), and even the import path stores a negative selling price `-5`
— so after these write paths the claimed invariant (lowercase status,
non-negative numbers) does not hold. -/
theorem claim_c3_counterexample :
    putUpdateRecord c3Item c3Put = some
      { id := 1, itemName := "Thing", sellingPrice := 5, currentQuantity := -7,
        unitType := some "", expiryDate := none, status := "NEW" } ∧
    lowerStr "NEW" ≠ "NEW" ∧
    ((-7 : ℤ) < 0) ∧
    (getById (processRow c7EmptyStore c3NegRow).1 0).map (fun r => r.sellingPrice) =
      some (Rat.divInt (-5) 1) ∧
    Rat.divInt (-5) 1 < 0 := by
  decide

/-- Claim C3 (amended): the import write paths store a lowercase status
(the stored status is always the `lowerStr` image of a string) and coerce
missing or unparsable numeric cells to 0, but perform no sign clamping;
the user edit endpoint stores the submitted status verbatim and the parsed
numbers unchanged, and the user create endpoint stores the submitted
status verbatim (defaulting a falsy status to `"not yet"`), so
non-lowercase statuses and negative values can be stored. -/
theorem claim_c3_write_normalization :
    (∀ (st : Store) (row : Row) (ex : InventoryItem), WF st →
      optTruthy (parseRow row).itemNameRaw = true →
      findByName st (jsStringO (parseRow row).itemNameRaw) = some ex →
      ∃ s, (getById (processRow st row).1 ex.id).map (fun r => r.status) =
        some (lowerStr s)) ∧
    (∀ (st : Store) (row : Row), WF st →
      optTruthy (parseRow row).itemNameRaw = true →
      findByName st (jsStringO (parseRow row).itemNameRaw) = none →
      ∃ s, (getById (processRow st row).1 st.nextId).map (fun r => r.status) =
        some (lowerStr s)) ∧
    (coerceFloat none = 0 ∧ coerceInt none = 0) ∧
    (∀ s, jsParseFloat s = none → coerceFloat (some (Value.str s)) = 0) ∧
    (∀ s, jsParseInt s = none → coerceInt (some (Value.str s)) = 0) ∧
    (∀ (it : InventoryItem) (b : PutBody) (u : InventoryItem),
      putUpdateRecord it b = some u →
      u.status = b.status ∧ parseFloatV b.sellingPrice = some u.sellingPrice ∧
        parseIntV b.currentQuantity = some u.currentQuantity) ∧
    (∀ (st : Store) (b : CreateBody) (st' : Store), WF st →
      createViaApi st b = some st' →
      (getById st' st.nextId).map (fun r => r.status) =
        some (match b.status with
          | some s => if s.isEmpty then "not yet" else s
          | none => "not yet")) := by
  refine ⟨?_, ?_, ⟨rfl, rfl⟩, ?_, ?_, ?_, ?_⟩
  · intro st row ex h ht hf
    refine ⟨if optTruthy (parseRow row).statusRaw = true
      then jsStringO (parseRow row).statusRaw else ex.status, ?_⟩
    rw [getById_processRow_found h ht hf]
    rfl
  · intro st row h ht hf
    refine ⟨if optTruthy (parseRow row).statusRaw = true
      then jsStringO (parseRow row).statusRaw else "not yet", ?_⟩
    rw [processRow_new ht hf, getById_createItem h rfl]
    rfl
  · intro s hs
    show (jsParseFloat s).getD 0 = 0
    rw [hs]
    rfl
  · intro s hs
    show (jsParseInt s).getD 0 = 0
    rw [hs]
    rfl
  · intro it b u hput
    unfold putUpdateRecord at hput
    cases hsp : parseFloatV b.sellingPrice with
    | none =>
      rw [hsp] at hput
      exact Option.noConfusion hput
    | some sp =>
      rw [hsp] at hput
      cases hcq : parseIntV b.currentQuantity with
      | none =>
        rw [hcq] at hput
        exact Option.noConfusion hput
      | some cq =>
        rw [hcq] at hput
        cases hed : bodyExpiry b.expiryDate with
        | none =>
          rw [hed] at hput
          exact Option.noConfusion hput
        | some ed =>
          rw [hed] at hput
          obtain rfl := (Option.some_inj.mp hput).symm
          exact ⟨rfl, rfl, rfl⟩
  · intro st b st' h hc
    unfold createViaApi at hc
    by_cases hni : b.itemName.isEmpty
    · rw [if_pos hni] at hc
      exact Option.noConfusion hc
    · rw [if_neg hni] at hc
      cases hsp : jsNumberV b.sellingPrice with
      | none =>
        rw [hsp] at hc
        exact Option.noConfusion hc
      | some sp =>
        rw [hsp] at hc
        cases hcq : jsNumberV b.currentQuantity with
        | none =>
          rw [hcq] at hc
          exact Option.noConfusion hc
        | some cq =>
          rw [hcq] at hc
          cases hed : bodyExpiry b.expiryDate with
          | none =>
            rw [hed] at hc
            exact Option.noConfusion hc
          | some ed =>
            rw [hed] at hc
            have hc2 : (if cq.den = 1 then
                some (createItem st (fun i =>
                  { id := i, itemName := b.itemName, sellingPrice := sp,
                    currentQuantity := cq.num, unitType := some (b.unitType.getD ""),
                    expiryDate := ed,
                    status := match b.status with
                      | some s => if s.isEmpty then "not yet" else s
                      | none => "not yet" }))
              else none) = some st' := hc
            by_cases hden : cq.den = 1
            · rw [if_pos hden] at hc2
              obtain rfl := (Option.some_inj.mp hc2).symm
              rw [getById_createItem h rfl]
              rfl
            · rw [if_neg hden] at hc2
              exact Option.noConfusion hc2

/-- Witness for the amended C3: the concrete `PUT` body `c3Put` is stored
with its status and parsed numbers exactly as submitted. -/
theorem claim_c3_write_normalization_witness :
    ({ id := 1, itemName := "Thing", sellingPrice := 5, currentQuantity := -7,
        unitType := some "", expiryDate := none,
        status := "NEW" } : InventoryItem).status = c3Put.status ∧
    parseFloatV c3Put.sellingPrice = some (5 : ℚ) ∧
    parseIntV c3Put.currentQuantity = some (-7 : ℤ) :=
  claim_c3_write_normalization.2.2.2.2.2.1 c3Item c3Put
    { id := 1, itemName := "Thing", sellingPrice := 5, currentQuantity := -7,
      unitType := some "", expiryDate := none, status := "NEW" } (by decide)

theorem runImportE_ok (fail : Store → Row → Bool) (hnf : ∀ s r, fail s r = false) :
    ∀ (st : Store) (rows : List Row), runImportE fail st rows = .ok (runImport st rows)
  | _, [] => rfl
  | st, r :: rs => by
    unfold runImportE
    rw [if_neg (by simp [hnf st r])]
    show (match runImportE fail (processRow st r).1 rs with
      | Except.error bad => Except.error bad
      | Except.ok (fin, c) =>
        Except.ok (fin, (if (processRow st r).2 = true then 1 else 0) + c)) =
      Except.ok (runImport st (r :: rs))
    rw [runImportE_ok fail hnf (processRow st r).1 rs]
    rfl

theorem runImportE_error (fail : Store → Row → Bool) :
    ∀ (pre : List Row) (st : Store) (r : Row) (post : List Row),
      noFailUpTo fail st pre → fail (runImport st pre).1 r = true →
      runImportE fail st (pre ++ r :: post) = .error (runImport st pre).1
  | [], st, r, post, _, hfail => by
    show runImportE fail st (r :: post) = .error st
    unfold runImportE
    rw [if_pos (show fail st r = true from hfail)]
  | q :: pre', st, r, post, hnf, hfail => by
    show runImportE fail st (q :: (pre' ++ r :: post)) = _
    unfold runImportE
    rw [if_neg (by simp [hnf.1])]
    show (match runImportE fail (processRow st q).1 (pre' ++ r :: post) with
      | Except.error bad => Except.error bad
      | Except.ok (fin, c) =>
        Except.ok (fin, (if (processRow st q).2 = true then 1 else 0) + c)) =
      Except.error (runImport st (q :: pre')).1
    rw [runImportE_error fail pre' (processRow st q).1 r post hnf.2 hfail]
    rfl

def c6EmptyStore : Store := { items := [], nextId := 0 }

def c6Row : Row := [("itemname", Value.num 0), ("quantity", Value.str "4")]

/-- Counterexample to C6 as stated: the row `c6Row` has a resolvable
item-name value (the numeric cell `0`), so the claim's counting rule
("increments once for every row with a resolvable item name") demands a
count of 1; the engine skips the falsy name and returns 0. -/
theorem claim_c6_counterexample :
    (parseRow c6Row).itemNameRaw = some (Value.num 0) ∧
    runImport c6EmptyStore [c6Row] = (c6EmptyStore, 0) := by
  decide

/-- Claim C6 (amended): on success the import returns the count of
processed rows — one for every row whose resolved item-name value is
truthy, regardless of create or update; if processing a row raises, the
remaining rows are not processed, mutations committed for earlier rows
remain committed (the error outcome's store is exactly the prefix run's
store), and the caller receives an error carrying no count. -/
theorem claim_c6_count_and_abort (st : Store) (rows : List Row)
    (fail : Store → Row → Bool) :
    ((∀ s r, fail s r = false) →
      runImportE fail st rows = .ok ((runImport st rows).1, countProcessed rows)) ∧
    (∀ pre r post, rows = pre ++ r :: post → noFailUpTo fail st pre →
      fail (runImport st pre).1 r = true →
      runImportE fail st rows = .error (runImport st pre).1) := by
  constructor
  · intro hnf
    rw [runImportE_ok fail hnf st rows, ← runImport_count st rows]
  · intro pre r post hrows hnf hfail
    subst hrows
    exact runImportE_error fail pre st r post hnf hfail

def c6GoodRow : Row := [("Item Name", Value.str "Apple"), ("Quantity", Value.str "2")]

def c6FailRow : Row := [("Item Name", Value.str "Bomb")]

def c6Oracle : Store → Row → Bool := fun _ r => decide (r = c6FailRow)

/-- Witness for the amended C6: with an oracle that raises exactly on the
second row, the import returns an error whose store state is the committed
first-row prefix; with no failures, it returns the final store and the
processed count. -/
theorem claim_c6_count_and_abort_witness :
    runImportE c6Oracle c6EmptyStore [c6GoodRow, c6FailRow] =
      .error (runImport c6EmptyStore [c6GoodRow]).1 ∧
    runImportE (fun _ _ => false) c6EmptyStore [c6GoodRow, c6GoodRow] =
      .ok ((runImport c6EmptyStore [c6GoodRow, c6GoodRow]).1,
        countProcessed [c6GoodRow, c6GoodRow]) :=
  ⟨(claim_c6_count_and_abort c6EmptyStore [c6GoodRow, c6FailRow] c6Oracle).2
      [c6GoodRow] c6FailRow [] rfl (by decide) (by decide),
    (claim_c6_count_and_abort c6EmptyStore [c6GoodRow, c6GoodRow] (fun _ _ => false)).1
      (fun _ _ => rfl)⟩

theorem ratFloor_eq (q : ℚ) : ratFloor q = ⌊q⌋ := by
  rw [ratFloor, Rat.floor_def]
  exact Int.fdiv_eq_ediv _ (Int.ofNat_nonneg _)

theorem jsRound_intCast (n : ℤ) : jsRound ((n : ℚ)) = n := by
  rw [jsRound, ratFloor_eq, rAdd_eq]
  have hhalf : (mkRat 1 2 : ℚ) = 1 / 2 := by
    rw [Rat.mkRat_eq_div]
    norm_num
  rw [hhalf, Int.floor_int_add]
  norm_num

def c9Serial : ℚ := rAdd 25569 (mkRat 1 216000000)

/-- Counterexample to C9 as stated: for the numeric expiry cell
`s = 25569 + 1/216000000`, the value `(s − 25569) × 86400 × 1000` is `2/5`
of a millisecond, but the engine applies `Math.round` and produces the
timestamp `0` ms — not the claimed exact `(s − 25569) × 86400` seconds.
Moreover a numeric cell `0` is falsy and produces no date at all, while
the claim prescribes the timestamp `−25569` days for it. -/
theorem claim_c9_counterexample :
    parseExpiry (some (Value.num c9Serial)) = some (JsDate.valid 0) ∧
    rMul (rMul (rSub c9Serial 25569) 86400) 1000 = mkRat 2 5 ∧
    (mkRat 2 5 : ℚ) ≠ ((0 : ℤ) : ℚ) ∧
    parseExpiry (some (Value.num 0)) = none := by
  decide

/-- Claim C9 (amended): for every nonzero integer serial `d` whose
converted timestamp is within the JS `Date` range, the numeric expiry cell
yields exactly the timestamp `(d − 25569) × 86400 × 1000` ms after the
1970-01-01 epoch (for fractional serials the product is rounded to the
nearest millisecond, and a `0` cell is treated as absent); in particular a
cell of `45000` yields `1970-01-01 + 19431 days`. -/
theorem claim_c9_serial_date :
    (∀ d : ℤ, d ≠ 0 → ((d - 25569) * 86400 * 1000).natAbs ≤ maxJsDateMs →
      parseExpiry (some (Value.num (d : ℚ))) =
        some (JsDate.valid ((d - 25569) * 86400 * 1000))) ∧
    parseExpiry (some (Value.num 45000)) = some (JsDate.valid (19431 * 86400000)) := by
  constructor
  · intro d hd hrange
    have htruthy : valueTruthy (Value.num (d : ℚ)) = true := by
      simp only [valueTruthy, decide_eq_true_eq]
      exact_mod_cast hd
    show (if valueTruthy (Value.num (d : ℚ)) = true
      then some (jsDateOfMs (jsRound (rMul (rMul (rSub ((d : ℚ)) 25569) 86400) 1000)))
      else none) = _
    rw [if_pos htruthy]
    have harith : rMul (rMul (rSub ((d : ℚ)) 25569) 86400) 1000 =
        (((d - 25569) * 86400 * 1000 : ℤ) : ℚ) := by
      rw [rMul_eq, rMul_eq, rSub_eq]
      push_cast
      ring
    rw [harith, jsRound_intCast]
    unfold jsDateOfMs
    rw [if_pos hrange]
  · decide

/-- Witness for the amended C9: the in-range nonzero serial `1` yields the
timestamp `(1 − 25569) × 86400 × 1000` ms. -/
theorem claim_c9_serial_date_witness :
    parseExpiry (some (Value.num ((1 : ℤ) : ℚ))) =
      some (JsDate.valid (((1 : ℤ) - 25569) * 86400 * 1000)) :=
  claim_c9_serial_date.1 1 (by decide) (by decide)

/-- Claim C10: importing the same parsed sheet twice in succession (no
interleaved external writes) leaves the store exactly as importing it once
and returns the same processed count both times — every row that created a
record in the first run matches it in the second and rewrites identical
field values. -/
theorem claim_c10_idempotent (st : Store) (rows : List Row) (h : WF st) :
    runImport (runImport st rows).1 rows = ((runImport st rows).1, (runImport st rows).2) :=
  Prod.ext (runImport_store_idem h rows)
    (by rw [runImport_count, runImport_count])

def c10Item : InventoryItem :=
  { id := 0, itemName := "Salt", sellingPrice := 1, currentQuantity := 9,
    unitType := some "kg", expiryDate := none, status := "not yet" }

def c10Store : Store := { items := [c10Item], nextId := 1 }

def c10Rows : List Row :=
  [[("Item Name", Value.str "Pepper"), ("Quantity", Value.str "5")],
   [("Item Name", Value.str "Salt"), ("Selling Price", Value.str "2.5"),
    ("Status", Value.str "Updated")]]

/-- Witness for C10: a two-row sheet (one create, one update) imported
twice gives the same store as one import, and both runs count 2 rows. -/
theorem claim_c10_idempotent_witness :
    runImport (runImport c10Store c10Rows).1 c10Rows =
      ((runImport c10Store c10Rows).1, 2) :=
  (claim_c10_idempotent c10Store c10Rows (by decide)).trans (by decide)
